import Mathlib

/-!
Verification development for the nabib transaction-export pipeline
(src/nabib.py).  The browser-driving parts of the program (selenium calls,
page navigation, waiting) are external I/O collaborators; the model below
embeds the computational core: the NABNumber decimal wrapper, the MonthDate
calendar arithmetic, the payee-category rule files, row normalization
(Account.process_row), extraction (Account.download_transactions) and the
QIF/delimited serialization (Account.qif, Transaction.__str__,
Transaction.qif).

Python strings are modeled as Lean String values (manipulated through their
character lists); Python decimal.Decimal values are modeled by the Dec type
(sign, coefficient, exponent, plus NaN); Python exceptions are modeled with
Except PyErr.  The program is Python 2, so raw row data arrives as text.
-/

deriving instance DecidableEq for Except

namespace Nabib

/-- Python exception kinds raised by the modeled code paths. -/
inductive PyErr where
  | valueError
  | attributeError
  | invalidOperation
  | overflowError
  deriving DecidableEq

/-! ### Character classes and low-level string helpers -/

/-- Decimal digit characters. -/
def isDig (c : Char) : Bool :=
  (c == '0') || (c == '1') || (c == '2') || (c == '3') || (c == '4') ||
  (c == '5') || (c == '6') || (c == '7') || (c == '8') || (c == '9')

/-- Python str.strip() whitespace set (ASCII part, which is all the program
meets). -/
def pyWs (c : Char) : Bool :=
  (c == ' ') || (c == '\t') || (c == '\n') || (c == '\r') ||
  (c == '\x0b') || (c == '\x0c')

/-- ASCII lower-casing, as performed by re.IGNORECASE and str.lower on the
ASCII inputs of this program. -/
def lowerCh (c : Char) : Char :=
  if 65 ≤ c.toNat ∧ c.toNat ≤ 90 then Char.ofNat (c.toNat + 32) else c

/-- Numeric value of a digit character. -/
def chVal (c : Char) : ℕ := c.toNat - 48

/-- Python str.strip() on a character list: drop leading and trailing
whitespace. -/
def stripL (l : List Char) : List Char :=
  ((l.dropWhile pyWs).reverse.dropWhile pyWs).reverse

/-- Python str.strip() on a String. -/
def pyStrip (s : String) : String := ⟨stripL s.data⟩

/-- Whether the first list occurs as a contiguous run inside the second. -/
def isInfixL : List Char → List Char → Bool
  | pat, [] => pat.isEmpty
  | pat, a :: rest => pat.isPrefixOf (a :: rest) || isInfixL pat rest

/-- Python s.split(sep) for a single-character separator: keeps empty
pieces, and the result is never empty. -/
def splitCh (c : Char) : List Char → List (List Char)
  | [] => [[]]
  | a :: rest =>
    match splitCh c rest with
    | [] => [[a]]
    | h :: t => if a = c then [] :: h :: t else (a :: h) :: t

/-- re.sub(r'[+,$]', r'', s): drop every occurrence of the three characters. -/
def dropPlusCommaDollar (l : List Char) : List Char :=
  l.filter (fun c => !((c == '+') || (c == ',') || (c == '$')))

/-- Python str.replace with a literal (non-empty) pattern, fuel-indexed so
that it is structurally recursive.  The program never calls replace with an
empty pattern. -/
def replaceFuel (pat repl : List Char) : ℕ → List Char → List Char
  | 0, l => l
  | _ + 1, [] => []
  | fuel + 1, a :: rest =>
    if pat ≠ [] ∧ pat.isPrefixOf (a :: rest) then
      repl ++ replaceFuel pat repl fuel (rest.drop (pat.length - 1))
    else
      a :: replaceFuel pat repl fuel rest

/-- Python s.replace(pat, repl) (literal substring replacement). -/
def pyReplace (pat repl s : String) : String :=
  ⟨replaceFuel pat.data repl.data s.data.length s.data⟩

/-! ### Decimal digit rendering (used by decimal string conversion) -/

/-- Fuel-indexed most-significant-first decimal digits of a natural
number. -/
def natDigitsF : ℕ → ℕ → List ℕ
  | 0, n => [n % 10]
  | fuel + 1, n => if n < 10 then [n] else natDigitsF fuel (n / 10) ++ [n % 10]

/-- Most-significant-first decimal digits of a natural number (the digits of
Python's str(int)). -/
def natDigits (n : ℕ) : List ℕ := natDigitsF n n

/-- The character of a single decimal digit. -/
def digitCh (d : ℕ) : Char :=
  match d with
  | 0 => '0' | 1 => '1' | 2 => '2' | 3 => '3' | 4 => '4'
  | 5 => '5' | 6 => '6' | 7 => '7' | 8 => '8' | _ => '9'

/-- Decimal digit characters of a natural number. -/
def natChars (n : ℕ) : List Char := (natDigits n).map digitCh

/-- Reads a digit-character list back as a natural number (most significant
first). -/
def digitsToNat (l : List Char) : ℕ :=
  l.foldl (fun acc c => 10 * acc + chVal c) 0

/-! ### The decimal model (Python decimal.Decimal under the program's
context, and the NABNumber subclass from src/nabib.py lines 97-124)

A finite decimal is a sign, a coefficient and an exponent; NaN is the
undefined value.  Infinite decimals are not modeled: no input the program
feeds to the constructor produces them. -/

inductive Dec where
  | nan : Dec
  | num (neg : Bool) (coeff : ℕ) (exp : ℤ) : Dec
  deriving DecidableEq

/-- math.isnan on the modeled decimal. -/
def Dec.isnanB : Dec → Bool
  | .nan => true
  | .num _ _ _ => false

/-- The rational value of a finite decimal. -/
def decValue : Dec → Option ℚ
  | .nan => none
  | .num neg c e =>
    some ((if neg then (-1 : ℚ) else 1) * (c : ℚ) *
      (if 0 ≤ e then (10 : ℚ) ^ e.toNat else ((10 : ℚ) ^ (-e).toNat)⁻¹))

/-- Split a character list at the first exponent marker. -/
def breakExp : List Char → List Char × Option (List Char)
  | [] => ([], none)
  | a :: rest =>
    if a = 'e' ∨ a = 'E' then ([], some rest)
    else
      match breakExp rest with
      | (m, x) => (a :: m, x)

/-- Split a character list at the first dot. -/
def breakDot : List Char → List Char × Option (List Char)
  | [] => ([], none)
  | a :: rest =>
    if a = '.' then ([], some rest)
    else
      match breakDot rest with
      | (m, x) => (a :: m, x)

/-- An optional sign followed by a non-empty run of digits, as in the
exponent field of the decimal string grammar. -/
def parseSignedNat (l : List Char) : Option ℤ :=
  let sd : Bool × List Char :=
    match l with
    | c :: t => if c = '-' then (true, t) else if c = '+' then (false, t) else (false, l)
    | [] => (false, [])
  if sd.2 ≠ [] ∧ sd.2.all isDig then
    some ((if sd.1 then (-1 : ℤ) else 1) * (digitsToNat sd.2 : ℤ))
  else none

/-- The sign-stripped body of the decimal string grammar: either a NaN
form with an optional digit payload, or digits with an optional dot and
an optional exponent.  Anything else signals InvalidOperation. -/
def decParseSigned (neg : Bool) (rest : List Char) : Except PyErr Dec :=
  let low := rest.map lowerCh
  if low.take 3 = ['n', 'a', 'n'] ∧ (low.drop 3).all isDig then .ok Dec.nan
  else if low.take 4 = ['s', 'n', 'a', 'n'] ∧ (low.drop 4).all isDig then .ok Dec.nan
  else
    let me := breakExp rest
    match (match me.2 with
           | none => some (0 : ℤ)
           | some ep => parseSignedNat ep) with
    | none => .error .invalidOperation
    | some ev =>
      let ifp := breakDot me.1
      let fp := ifp.2.getD []
      if ifp.1.all isDig ∧ fp.all isDig ∧ ¬(ifp.1 = [] ∧ fp = []) then
        .ok (Dec.num neg (digitsToNat (ifp.1 ++ fp)) (ev - fp.length))
      else .error .invalidOperation

/-- The decimal.Decimal string constructor (Python 2.7 numeric-string
grammar restricted to finite numbers and NaN): an optional sign followed
by the grammar body. -/
def pyDecOfChars (l : List Char) : Except PyErr Dec :=
  match l with
  | c :: t =>
    if c = '-' then decParseSigned true t
    else if c = '+' then decParseSigned false t
    else decParseSigned false l
  | [] => decParseSigned false []

/-- NABNumber.__new__ (src/nabib.py lines 99-111) on a string or absent
input: join the newline-split, stripped pieces, drop plus, comma and dollar
signs, strip, split off a DR/CR marker, undo a -minus prefix, map the N/A
and empty sentinels to NaN, negate on DR, and hand the result to the
Decimal constructor. -/
def nabParse (input : Option String) : Except PyErr Dec :=
  let s0 : List Char :=
    match input with
    | none => "NaN".data
    | some s => if s.data = [] then "NaN".data else s.data
  let joined := ((splitCh '\n' s0).map stripL).flatten
  let value := stripL (dropPlusCommaDollar joined)
  let parts := splitCh ' ' value
  let number0 := parts.headD []
  let dorc := (parts.drop 1).headD []
  let number := replaceFuel "-minus".data "-".data number0.length number0
  let convert :=
    if value = "N/A".data ∨ value = [] then "NaN".data
    else (if dorc = "DR".data then ['-'] else []) ++ number
  pyDecOfChars convert

/-- Rounding division by a power of ten with ROUND_HALF_DOWN (to nearest,
ties toward zero), on the magnitude. -/
def halfDownDiv (n q : ℕ) : ℕ :=
  n / q + (if q < 2 * (n % q) then 1 else 0)

/-- The scaled-to-cents magnitude of a finite decimal, rounded with
ROUND_HALF_DOWN as the fixed-point format step of
Decimal.__format__ does under the program's context. -/
def decCents (c : ℕ) (e : ℤ) : ℕ :=
  if 0 ≤ e + 2 then c * 10 ^ (e + 2).toNat
  else halfDownDiv c (10 ^ (-(e + 2)).toNat)

/-- Right-justify to the minimum width 6 of the format specifier 6.2f. -/
def pad6 (l : List Char) : List Char := List.replicate (6 - l.length) ' ' ++ l

/-- The two final digit characters of a cents magnitude below 100. -/
def twoDigCh (n : ℕ) : List Char := [digitCh (n / 10), digitCh (n % 10)]

/-- NABNumber.__str__ (src/nabib.py lines 113-116): the two-decimal
rendering of the value through format spec 6.2f — sign, integer digits,
dot, two fractional digits rounded half-down, right-justified to width 6.
NaN formats as the padded text NaN. -/
def nabStr (d : Dec) : String :=
  match d with
  | .nan => ⟨pad6 ['N', 'a', 'N']⟩
  | .num neg c e =>
    let cents := decCents c e
    ⟨pad6 ((if neg then ['-'] else []) ++
      natChars (cents / 100) ++ '.' :: twoDigCh (cents % 100))⟩

/-- Decimal.__format__ with an empty format specifier (what a bare format
slot such as a str.format replacement field applies to a Decimal): type
G with no precision, fixed-point when the exponent is at most zero and the
adjusted exponent is above -6, scientific otherwise.  This is the
rendering the QIF closing-balance line and the delimited export embed. -/
def formatEmpty (d : Dec) : String :=
  match d with
  | .nan => "NaN"
  | .num neg c e =>
    let ds := natChars c
    let leftdigits : ℤ := e + ds.length
    let dotplace : ℤ := if e ≤ 0 ∧ (-6 : ℤ) < leftdigits then leftdigits else 1
    let intpart : List Char :=
      if dotplace ≤ 0 then ['0']
      else if (ds.length : ℤ) < dotplace then
        ds ++ List.replicate (dotplace - ds.length).toNat '0'
      else ds.take dotplace.toNat
    let fracpart : List Char :=
      if dotplace ≤ 0 then List.replicate (-dotplace).toNat '0' ++ ds
      else if (ds.length : ℤ) < dotplace then []
      else ds.drop dotplace.toNat
    let expOut : ℤ := leftdigits - dotplace
    ⟨(if neg then ['-'] else []) ++ intpart ++
      (if fracpart = [] then [] else '.' :: fracpart) ++
      (if expOut = 0 then []
       else 'E' :: (if 0 ≤ expOut then '+' :: natChars expOut.toNat
                    else '-' :: natChars (-expOut).toNat))⟩

/-- Decimal addition under the module context
decimal.Context(prec=2, rounding=ROUND_HALF_DOWN) installed at line 25-26:
NaN propagates; otherwise the exact sum is rounded to two significant
digits with half-down rounding.  NABNumber.__add__ wraps exactly this. -/
def ctxAdd : Dec → Dec → Dec
  | .nan, _ => .nan
  | .num _ _ _, .nan => .nan
  | .num n1 c1 e1, .num n2 c2 e2 =>
    let e := min e1 e2
    let z1 : ℤ := (if n1 then (-1 : ℤ) else 1) * c1 * 10 ^ (e1 - e).toNat
    let z2 : ℤ := (if n2 then (-1 : ℤ) else 1) * c2 * 10 ^ (e2 - e).toNat
    let s := z1 + z2
    if s = 0 then .num (n1 && n2) 0 e
    else
      let a := s.natAbs
      let neg : Bool := s < 0
      let nd := (natDigits a).length
      if nd ≤ 2 then .num neg a e
      else
        let shift := nd - 2
        let q := 10 ^ shift
        let r := halfDownDiv a q
        if r = 100 then .num neg 10 (e + shift + 1) else .num neg r (e + shift)

/-! ### Dates: datetime.date and the MonthDate subclass
(src/nabib.py lines 58-94)

datetime.date covers years 1 to 9999; stepping outside that range raises
OverflowError, modeled by Option.none. -/

/-- Gregorian leap year, as datetime uses. -/
def isLeap (y : ℕ) : Bool :=
  y % 4 = 0 && (y % 100 ≠ 0 || y % 400 = 0)

/-- Days in a month of a year. -/
def daysInMonth (y m : ℕ) : ℕ :=
  match m with
  | 1 => 31
  | 2 => if isLeap y then 29 else 28
  | 3 => 31
  | 4 => 30
  | 5 => 31
  | 6 => 30
  | 7 => 31
  | 8 => 31
  | 9 => 30
  | 10 => 31
  | 11 => 30
  | 12 => 31
  | _ => 0

/-- A datetime.date value (MonthDate adds no fields). -/
structure PyDate where
  year : ℕ
  month : ℕ
  day : ℕ
  deriving DecidableEq

/-- A date datetime.date accepts. -/
def PyDate.validB (d : PyDate) : Bool :=
  1 ≤ d.year && d.year ≤ 9999 && 1 ≤ d.month && d.month ≤ 12 &&
  1 ≤ d.day && d.day ≤ daysInMonth d.year d.month

/-- The next calendar day; none when it would pass date.max
(9999-12-31), where datetime raises OverflowError. -/
def succDay (d : PyDate) : Option PyDate :=
  if d.day < daysInMonth d.year d.month then some ⟨d.year, d.month, d.day + 1⟩
  else if d.month < 12 then some ⟨d.year, d.month + 1, 1⟩
  else if d.year < 9999 then some ⟨d.year + 1, 1, 1⟩
  else none

/-- The previous calendar day; none when it would pass date.min
(0001-01-01), where datetime raises OverflowError. -/
def predDay (d : PyDate) : Option PyDate :=
  if 1 < d.day then some ⟨d.year, d.month, d.day - 1⟩
  else if 1 < d.month then some ⟨d.year, d.month - 1, daysInMonth d.year (d.month - 1)⟩
  else if 1 < d.year then some ⟨d.year - 1, 12, 31⟩
  else none

/-- date + timedelta(days=n), one day at a time. -/
def addDaysO : ℕ → PyDate → Option PyDate
  | 0, d => some d
  | n + 1, d => (succDay d).bind (addDaysO n)

/-- MonthDate.month_start: the first day of the month of the date. -/
def monthStart (d : PyDate) : PyDate := ⟨d.year, d.month, 1⟩

/-- MonthDate.month_end_prev: month_start minus one day. -/
def monthEndPrev (d : PyDate) : Option PyDate := predDay (monthStart d)

/-- MonthDate.month_next: the month_start of month_start plus 31 days. -/
def monthNext (d : PyDate) : Option PyDate :=
  (addDaysO 31 (monthStart d)).map monthStart

/-- MonthDate.month_end: the month_end_prev of month_next. -/
def monthEnd (d : PyDate) : Option PyDate :=
  (monthNext d).bind monthEndPrev

/-- Python date ordering (equivalently ordinal comparison): lexicographic
on year, month, day. -/
def dateLtB (a b : PyDate) : Bool :=
  a.year < b.year ||
  (a.year = b.year && (a.month < b.month ||
    (a.month = b.month && a.day < b.day)))

/-- The ISO rendering str(date) uses: zero-padded YYYY-MM-DD. -/
def padZeros (w : ℕ) (l : List Char) : List Char :=
  List.replicate (w - l.length) '0' ++ l

/-- str(datetime.date): ISO format YYYY-MM-DD. -/
def isoDate (d : PyDate) : String :=
  ⟨padZeros 4 (natChars d.year) ++ '-' :: padZeros 2 (natChars d.month) ++
   '-' :: padZeros 2 (natChars d.day)⟩

/-! #### strptime with format %d %b %y
(MonthDate.strptime as called from Account.process_row line 405) -/

/-- The abbreviated month names of the C locale, as %b matches them
(case-insensitively). -/
def monthAbbrevs : List (ℕ × List Char) :=
  [(1, ['j', 'a', 'n']), (2, ['f', 'e', 'b']), (3, ['m', 'a', 'r']),
   (4, ['a', 'p', 'r']), (5, ['m', 'a', 'y']), (6, ['j', 'u', 'n']),
   (7, ['j', 'u', 'l']), (8, ['a', 'u', 'g']), (9, ['s', 'e', 'p']),
   (10, ['o', 'c', 't']), (11, ['n', 'o', 'v']), (12, ['d', 'e', 'c'])]

/-- The %d field: the regex alternation 3[01], [12] followed by a digit,
0 followed by 1-9, or a single 1-9, in that order. -/
def parseDayField : List Char → Option (ℕ × List Char)
  | [] => none
  | [c1] => if isDig c1 ∧ c1 ≠ '0' then some (chVal c1, []) else none
  | c1 :: c2 :: rest =>
    if c1 = '3' ∧ (c2 = '0' ∨ c2 = '1') then some (30 + chVal c2, rest)
    else if (c1 = '1' ∨ c1 = '2') ∧ isDig c2 then
      some (10 * chVal c1 + chVal c2, rest)
    else if c1 = '0' ∧ isDig c2 ∧ c2 ≠ '0' then some (chVal c2, rest)
    else if isDig c1 ∧ c1 ≠ '0' then some (chVal c1, c2 :: rest)
    else none

/-- The %b field: three characters naming a month abbreviation,
case-insensitively. -/
def parseMonthField (l : List Char) : Option (ℕ × List Char) :=
  let three := (l.take 3).map lowerCh
  match monthAbbrevs.find? (fun p => p.2 = three) with
  | some p => if 3 ≤ l.length then some (p.1, l.drop 3) else none
  | none => none

/-- The %y field: exactly two digits (the strptime pattern for %y);
years through 68 map to 2000+, the rest to 1900+. -/
def parseYearField : List Char → Option (ℕ × List Char)
  | c1 :: c2 :: rest =>
    if isDig c1 ∧ isDig c2 then some (10 * chVal c1 + chVal c2, rest)
    else none
  | _ => none

/-- A run of one or more whitespace characters (a literal blank in a
strptime format matches as a whitespace run). -/
def parseWsRun : List Char → Option (List Char)
  | [] => none
  | c :: rest => if pyWs c then some (rest.dropWhile pyWs) else none

/-- MonthDate.strptime(value, d-b-y): parse day, month abbreviation and
two-digit year, reject leftover text, then build the date, which validates
the day against the month length (ValueError otherwise). -/
def pyStrptimeDBY (s : String) : Except PyErr PyDate :=
  match parseDayField s.data with
  | none => .error .valueError
  | some dayRest =>
    match parseWsRun dayRest.2 with
    | none => .error .valueError
    | some afterWs1 =>
      match parseMonthField afterWs1 with
      | none => .error .valueError
      | some monRest =>
        match parseWsRun monRest.2 with
        | none => .error .valueError
        | some afterWs2 =>
          match parseYearField afterWs2 with
          | none => .error .valueError
          | some yRest =>
            if yRest.2 ≠ [] then .error .valueError
            else
              let year := if yRest.1 ≤ 68 then 2000 + yRest.1 else 1900 + yRest.1
              if dayRest.1 ≤ daysInMonth year monRest.1 then
                .ok ⟨year, monRest.1, dayRest.1⟩
              else .error .valueError

/-! ### Category rules (Account.payee_category_map, lines 243-257, and the
categorization loop of Account.process_row, lines 395-403)

Rule files are modeled as the list of their lines (without newlines);
a missing file is Option.none.  The Python 2.7 dict is modeled as an
association list with insert-or-update; the list order is a bookkeeping
artifact and carries no information - CPython 2.7 iterates a dict in
hash-table order, which the program does not pin down - so everything
proved about the categorization loop is quantified over every enumeration
(permutation) of the mapping's entries, and facts about the mapping
itself are stated through lookup only.  A rule pattern is matched by
re.match on the pattern wrapped between two .* runs with re.IGNORECASE;
for a pattern free of regex metacharacters tested against a field free of
newlines that regex succeeds exactly when the pattern occurs in the field
case-insensitively (ASCII case, as for a Python 2 byte string), which is
what containsCI computes; the claim theorems restrict themselves to that
fragment through the litPat and noNL hypotheses. -/

/-- Case-insensitive containment of a rule pattern in a field: the
behavior of the line-398 regex match on metacharacter-free patterns and
newline-free fields. -/
def containsCI (pat field : String) : Bool :=
  isInfixL (pat.data.map lowerCh) (field.data.map lowerCh)

/-- The regex metacharacters of the re module. -/
def reMeta : List Char :=
  ['.', '^', '$', '*', '+', '?', '(', ')', '[', ']',
   Char.ofNat 123, Char.ofNat 125, '|', '\\']

/-- A pattern that the line-398 regex treats as literal single-line text:
no regex metacharacter and no newline. -/
def litPat (p : String) : Bool :=
  p.data.all (fun ch => !(reMeta.contains ch) && ch ≠ '\n')

/-- A field with no newline (the . of the wrapping .* runs does not cross
newlines). -/
def noNL (s : String) : Bool := !(s.data.contains '\n')

/-- Insert-or-update on the association-list model of a dict: the
semantics of a dict assignment, observed through dictLookup. -/
def dictInsert : List (String × String) → String → String → List (String × String)
  | [], k, v => [(k, v)]
  | kv :: rest, k, v =>
    if kv.1 = k then (k, v) :: rest else kv :: dictInsert rest k v

/-- Key lookup in the association-list model of a dict (the model keeps
at most one entry per key, so find? is the lookup). -/
def dictLookup (m : List (String × String)) (k : String) : Option String :=
  (m.find? (fun kv => kv.1 = k)).map Prod.snd

/-- Fold a sequence of parsed rules into the dict model. -/
def insertAll (m : List (String × String)) (rules : List (String × String)) :
    List (String × String) :=
  rules.foldl (fun acc kv => dictInsert acc kv.1 kv.2) m

/-- The two-target tuple assignment on the bar-split of a rule line:
defined exactly when the split has two fields. -/
def pairOfSplit : List (List Char) → Option (String × String)
  | [k, v] => some (⟨k⟩, ⟨v⟩)
  | _ => none

/-- One line of a rule file, appended to an ordered rule sequence: blank
lines are skipped, and a line whose strip-split on the bar does not have
exactly two fields raises ValueError. -/
def parseStep (acc : List (String × String)) (line : String) :
    Except PyErr (List (String × String)) :=
  if (pyStrip line).data = [] then .ok acc
  else
    match pairOfSplit (splitCh '|' (pyStrip line).data) with
    | some kv => .ok (acc ++ [kv])
    | none => .error .valueError

/-- The ordered (pattern, category) pairs of a rule file, in line order. -/
def parseRuleLines (lines : List String) : Except PyErr (List (String × String)) :=
  lines.foldlM parseStep []

/-- One line of a rule file, inserted into the dict model (the loop body
of payee_category_map). -/
def loadStep (acc : List (String × String)) (line : String) :
    Except PyErr (List (String × String)) :=
  if (pyStrip line).data = [] then .ok acc
  else
    match pairOfSplit (splitCh '|' (pyStrip line).data) with
    | some kv => .ok (dictInsert acc kv.1 kv.2)
    | none => .error .valueError

/-- Read one rule file into the dict (the body of the file loop of
payee_category_map). -/
def loadFileInto (m : List (String × String)) (lines : List String) :
    Except PyErr (List (String × String)) :=
  lines.foldlM loadStep m

/-- Account.payee_category_map: iterate over both candidate files — the
account-specific file first, then the shared file — loading each one that
exists into the same dict. -/
def payeeCategoryMap (specific shared : Option (List String)) :
    Except PyErr (List (String × String)) := do
  let m1 ← match specific with
            | some l => loadFileInto [] l
            | none => pure []
  match shared with
  | some l => loadFileInto m1 l
  | none => pure m1

/-- The inner loop of the categorization pass over one field, for a given
items() enumeration of the dict (the enumeration is an argument: the
program's is an unspecified hash order). -/
def findFirst : List (String × String) → String → Option String
  | [], _ => none
  | kv :: rest, f => if containsCI kv.1 f then some kv.2 else findFirst rest f

/-- The categorization pass of process_row over a given items()
enumeration: every rule is tried against the payee field (falsy payee
read as empty text), and only when none matched there, every rule against
the memo field, short-circuiting on the first matching rule; Unspecified
when nothing matches. -/
def findCategoryItems (items : List (String × String)) (payee : Option String)
    (memo : String) : String :=
  match findFirst items (payee.getD "") with
  | some cat => cat
  | none => (findFirst items memo).getD "Unspecified"

/-- The categorization pass as run inside processRow: the loop evaluated
at the model list's own enumeration.  The accounts this development
evaluates processRow on carry rule maps for which every enumeration
gives the same answer, so this choice is not observable there; claim
statements about categorization quantify over every enumeration via
findCategoryItems. -/
def findCategory (m : List (String × String)) (payee : Option String)
    (memo : String) : String :=
  findCategoryItems m payee memo

/-! ### Row normalization (Account.process_row, lines 360-405) -/

/-- One raw transaction row as the external session hands it over
(spec section 6): the cell count of the row and the text of its positional
fields.  The debit and credit spans may be absent (none).  The
number_balance child element never occurs in the scraped pages, so the
prefix-stripping re.sub on the balance text is the identity and the
balance cell is its text. -/
structure RawRow where
  cells : ℕ
  dateText : String
  narrative : String
  transCode : String
  debitText : Option String
  creditText : Option String
  balanceText : String
  deriving DecidableEq

/-- A normalized transaction record. -/
structure Transaction where
  date : PyDate
  typ : String
  reference : Option String
  payee : Option String
  memo : String
  amount : Dec
  category : String
  balance : Dec
  deriving DecidableEq

/-- The first run of two or more spaces: the part before it and the part
after it (the separator run is consumed greedily), as
re.split(two-spaces-then-star, s, 1) finds it. -/
def split2SpacesFirst : List Char → Option (List Char × List Char)
  | [] => none
  | a :: rest =>
    match rest with
    | [] => none
    | b :: rest2 =>
      if a = ' ' ∧ b = ' ' then some ([], rest2.dropWhile (fun c => c = ' '))
      else
        match split2SpacesFirst rest with
        | none => none
        | some pr => some (a :: pr.1, pr.2)

/-- Line 370-376: split the stripped narrative at the first multi-space
run (at most one split), reverse the pieces, pad with one empty string,
and tuple-assign to (location, memo); a successful split therefore
produces three values for two targets and raises ValueError.  When no
split point exists the whole blob becomes the memo and the location is
empty. -/
def detailSplit (blob : String) : Except PyErr (String × String) :=
  let stripped := stripL blob.data
  let pieces : List (List Char) :=
    match split2SpacesFirst stripped with
    | none => [stripped]
    | some pr => [pr.1, pr.2]
  match pieces.reverse ++ [[]] with
  | [x, y] => if y = [] then .ok (⟨[]⟩, ⟨x⟩) else .ok (⟨x⟩, ⟨y⟩)
  | _ => .error .valueError

/-- Line 394: derive the payee from a non-empty memo through four
str.replace calls whose patterns are the literal texts of four regexes
(including their anchors and stars); an empty memo gives payee None. -/
def payeeFromMemo (memo : String) : Option String :=
  if memo.data = [] then none
  else
    let r1 := pyReplace "^.*[0-9][0-9]:[0-9][0-9] " "" memo
    let r2 := pyReplace "^INTERNET BPAY *" "" r1
    let r3 := pyReplace "^INTERNET TRANSFER *" "" r2
    let r4 := pyReplace "^FEES *" "" r3
    some r4

/-- Account.process_row: skip (returning None) a row with fewer cells than
the expected schema; otherwise split the narrative, parse debit (negated
when present), credit and balance, pick the amount (debit wins over
credit, else zero), derive the payee, categorize, parse the date, and
build the Transaction.  Reference is never populated. -/
def processRow (varNames : List String) (pmap : List (String × String))
    (row : RawRow) : Except PyErr (Option Transaction) :=
  if row.cells < varNames.length then .ok none
  else do
    let lm ← detailSplit row.narrative
    let debitArg : String :=
      match row.debitText with
      | none => "NaN"
      | some t => if t.data = [] then "NaN" else ⟨'-' :: t.data⟩
    let debit ← nabParse (some debitArg)
    let credit ← nabParse row.creditText
    let balance ← nabParse (some row.balanceText)
    let amt1 := if credit.isnanB then Dec.num false 0 (-2) else credit
    let amt := if debit.isnanB then amt1 else debit
    let payee := payeeFromMemo lm.2
    let category := findCategory pmap payee lm.2
    let date ← pyStrptimeDBY row.dateText
    .ok (some ⟨date, row.transCode, none, payee, lm.2, amt, category, balance⟩)

/-! ### Account state, extraction and export
(Account.__init__, download_transactions, qif; Transaction.qif and
Transaction.__str__) -/

/-- The Account fields the core pipeline touches.  current_balance is the
opening_balance argument, a Python float 0.0 by default; it is modeled as
the decimal 0 with exponent -1, which is observationally the float: not
NaN, value zero, and rendered 0.0 by a bare format slot. -/
structure AccountSt where
  typ : String
  bsb : Option String
  number : String
  nickName : String
  varNames : List String
  currentBalance : Dec
  atDate : PyDate
  closingBalance : Dec
  closingBalanceDate : PyDate
  transactions : List (Option Transaction)
  payeeMap : List (String × String)
  deriving DecidableEq

/-- The NAB-account-type to QIF-type table. -/
def acctTypeTable : List (String × String) :=
  [("DDA", "Bank"), ("SDA", "Bank"), ("VCD", "CCard"),
   ("transaction-account", "Bank"), ("credit-card", "CCard")]

/-- acct_type_map.get(type, Bank). -/
def acctTypeOf (t : String) : String :=
  ((acctTypeTable.find? (fun kv => kv.1 = t)).map Prod.snd).getD "Bank"

/-- A bare format slot applied to an optional string: None renders as the
text None. -/
def optStr : Option String → String
  | none => "None"
  | some s => s

/-- Transaction.qif (lines 141-153): the record block; the amount line
embeds str(amount).strip(). -/
def transQif (t : Transaction) : String :=
  "D" ++ isoDate t.date ++ "\nT" ++ pyStrip (nabStr t.amount) ++ "\nM" ++
  t.memo ++ "\nN" ++ t.typ ++ "\nP" ++ optStr t.payee ++ "\nL" ++
  t.category ++ "\n^\n"

/-- Transaction.__str__ (lines 155-156): the delimited line; every field
goes through a bare format slot, so the amount renders with
Decimal.__format__ (formatEmpty), not with the padded NABNumber.__str__. -/
def transStr (t : Transaction) : String :=
  isoDate t.date ++ "|" ++ formatEmpty t.amount ++ "|" ++ t.memo ++ "|" ++
  t.typ ++ "|" ++ optStr t.payee ++ "|" ++ t.category

/-- The transaction loop of Account.qif: accumulate the record blocks
while tracking closing balance and date; a None left in the transaction
list by a skipped row has no qif attribute and raises AttributeError. -/
def qifFold : List (Option Transaction) → String × Dec × PyDate →
    Except PyErr (String × Dec × PyDate)
  | [], st => .ok st
  | none :: _, _ => .error .attributeError
  | some t :: rest, st => qifFold rest (st.1 ++ transQif t, t.balance, t.date)

/-- Account.qif (lines 259-282): header, then the balance/date tracking
loop over the transactions, then the closing-balance block (whose line
renders the literal 0.00 when the closing balance is NaN, and otherwise
embeds the balance through a bare format slot), then the record blocks.
Returns the string and the updated account state. -/
def accountQif (acc : AccountSt) : Except PyErr (String × AccountSt) :=
  let header := "!Account\nN" ++
    (match acc.bsb with | some b => b ++ " " | none => "") ++ acc.number ++
    "\nT" ++ acctTypeOf acc.typ ++ "\n"
  match qifFold acc.transactions ("", acc.currentBalance, acc.atDate) with
  | .error e => .error e
  | .ok st =>
    let footer := "$" ++
      (if st.2.1.isnanB then "0.00" else formatEmpty st.2.1) ++ "\n/" ++
      isoDate st.2.2 ++ "\n^\n!Type:" ++ acctTypeOf acc.typ ++ "\n"
    .ok (header ++ footer ++ st.1,
      {acc with closingBalance := st.2.1, closingBalanceDate := st.2.2})

/-- Account.download_transactions (lines 323-358), from the point where
the raw rows are in hand (the navigation, filtering and the alert-driven
var_names.pop are browser interaction): with no rows, return zero at once
leaving the account state untouched; otherwise process every row, reverse
the sequence into oldest-first order, and read closing balance and date
off the last element with getattr defaults of zero and the requested end
date. -/
def downloadTransactions (acc : AccountSt) (rows : List RawRow)
    (endDate : PyDate) : Except PyErr (AccountSt × Dec) :=
  if rows.length = 0 then .ok (acc, .num false 0 (-2))
  else
    match rows.mapM (processRow acc.varNames acc.payeeMap) with
    | .error e => .error e
    | .ok ts =>
      let rev := ts.reverse
      let cb : Dec :=
        match rev.getLast? with
        | some (some t) => t.balance
        | _ => .num false 0 (-2)
      let cbd : PyDate :=
        match rev.getLast? with
        | some (some t) => t.date
        | _ => endDate
      .ok ({ acc with
             transactions := rev
             closingBalance := cb
             closingBalanceDate := cbd }, cb)

/-! ### Concrete fixtures used by the claim theorems -/

/-- The expected schema of a transaction row. -/
def sampleVarNames : List String := ["date", "details", "debit", "credit", "balance"]

/-- A newest-first debit row: 15 Jan 24, debit 50.00, balance 100.00. -/
def row15 : RawRow := ⟨5, "15 Jan 24", "COFFEE", "EFTPOS", some "50.00", none, "100.00"⟩

/-- An older credit row: 10 Jan 24, credit 200.00, balance 150.00. -/
def row10 : RawRow := ⟨5, "10 Jan 24", "SALARY", "CREDIT", none, some "200.00", "150.00"⟩

/-- A row with only three populated cells (schema mismatch). -/
def shortRow : RawRow := ⟨3, "", "", "", none, none, ""⟩

/-- The transaction row15 normalizes to. -/
def t15 : Transaction :=
  ⟨⟨2024, 1, 15⟩, "EFTPOS", none, some "COFFEE", "COFFEE",
   .num true 5000 (-2), "Unspecified", .num false 10000 (-2)⟩

/-- The transaction row10 normalizes to. -/
def t10 : Transaction :=
  ⟨⟨2024, 1, 10⟩, "CREDIT", none, some "SALARY", "SALARY",
   .num false 20000 (-2), "Unspecified", .num false 15000 (-2)⟩

/-- An account as constructed on 2026-10-12 (closing_balance_date is
initialized to the construction day, closing_balance to 0.00): a bank
account with a bsb, no transactions yet, no category rules. -/
def acc0 : AccountSt :=
  ⟨"DDA", some "083-004", "12-345-6789", "Main", sampleVarNames,
   .num false 0 (-1), ⟨2024, 1, 31⟩, .num false 0 (-2), ⟨2026, 10, 12⟩, [], []⟩

/-- A transaction whose amount and balance are -5.00 and 5.00:
renderings shorter than six characters. -/
def t5 : Transaction :=
  ⟨⟨2024, 1, 15⟩, "EFTPOS", none, some "COFFEE", "COFFEE",
   .num true 500 (-2), "Unspecified", .num false 500 (-2)⟩

/-- The canonical 2-decimal rendering of a signed amount of u units and c2
cents (the claim's canonical 2-decimal form, stated from the spec's words
for comparison with the code's parse and rendering). -/
def canon2 (neg : Bool) (u c2 : ℕ) : String :=
  ⟨(if neg then ['-'] else []) ++ natChars u ++ '.' :: twoDigCh c2⟩

/-- A valid 2-decimal textual amount: the canonical form, optionally
carrying the trailing DR debit marker. -/
def amountText (neg dr : Bool) (u c2 : ℕ) : String :=
  ⟨(canon2 neg u c2).data ++ (if dr then [' ', 'D', 'R'] else [])⟩

/-- The account acc0 after one transaction with amount -5.00 and balance
5.00 was extracted. -/
def acc5 : AccountSt := { acc0 with transactions := [some t5] }

/-- The QIF export of acc5. -/
def qif5 : String := "!Account\nN083-004 12-345-6789\nTBank\n$5.00\n/2024-01-15\n^\n!Type:Bank\nD2024-01-15\nT-5.00\nMCOFFEE\nNEFTPOS\nPCOFFEE\nLUnspecified\n^\n"

/-! #### Lemmas about the digit machinery -/

theorem natDigitsF_extra (fuel1 fuel2 n : ℕ) (h1 : n ≤ fuel1) (h2 : n ≤ fuel2) :
    natDigitsF fuel1 n = natDigitsF fuel2 n := by
  induction n using Nat.strongRecOn generalizing fuel1 fuel2 with
  | _ n ih =>
    cases fuel1 with
    | zero =>
      cases fuel2 with
      | zero => rfl
      | succ f2 =>
        have hn : n = 0 := by omega
        subst hn
        simp [natDigitsF]
    | succ f1 =>
      cases fuel2 with
      | zero =>
        have hn : n = 0 := by omega
        subst hn
        simp [natDigitsF]
      | succ f2 =>
        simp only [natDigitsF]
        split
        · rfl
        · rw [ih (n / 10) (by omega) f1 f2 (by omega) (by omega)]

theorem natDigits_step (n : ℕ) (h : 10 ≤ n) :
    natDigits n = natDigits (n / 10) ++ [n % 10] := by
  cases hn : n with
  | zero => omega
  | succ m =>
    have h0 : ¬ m + 1 < 10 := by omega
    show natDigitsF (m + 1) (m + 1) = _
    simp only [natDigitsF, h0, if_false]
    rw [natDigitsF_extra m ((m + 1) / 10) ((m + 1) / 10) (by omega) (le_refl _)]
    rfl

theorem natDigits_small (n : ℕ) (h : n < 10) : natDigits n = [n] := by
  cases n with
  | zero => rfl
  | succ m =>
    show natDigitsF (m + 1) (m + 1) = [m + 1]
    simp [natDigitsF, h]

theorem natDigits_mem_lt (n : ℕ) : ∀ d ∈ natDigits n, d < 10 := by
  induction n using Nat.strongRecOn with
  | _ n ih =>
    by_cases h : n < 10
    · rw [natDigits_small n h]
      intro d hd
      simp at hd
      omega
    · rw [natDigits_step n (by omega)]
      intro d hd
      rcases List.mem_append.mp hd with h1 | h2
      · exact ih (n / 10) (by omega) d h1
      · simp at h2
        omega

theorem natDigits_ne_nil (n : ℕ) : natDigits n ≠ [] := by
  by_cases h : n < 10
  · rw [natDigits_small n h]; simp
  · rw [natDigits_step n (by omega)]; simp

theorem chVal_digitCh (d : ℕ) (h : d < 10) : chVal (digitCh d) = d := by
  have hc : d = 0 ∨ d = 1 ∨ d = 2 ∨ d = 3 ∨ d = 4 ∨ d = 5 ∨ d = 6 ∨ d = 7 ∨
      d = 8 ∨ d = 9 := by omega
  rcases hc with rfl | rfl | rfl | rfl | rfl | rfl | rfl | rfl | rfl | rfl <;> decide

theorem isDig_digitCh (d : ℕ) : isDig (digitCh d) = true := by
  rcases d with _ | _ | _ | _ | _ | _ | _ | _ | _ | d <;> rfl

theorem natChars_all_dig (n : ℕ) : ∀ c ∈ natChars n, isDig c = true := by
  intro c hc
  rcases List.mem_map.mp hc with ⟨d, _, rfl⟩
  exact isDig_digitCh d

theorem natChars_ne_nil (n : ℕ) : natChars n ≠ [] := by
  unfold natChars
  intro h
  exact natDigits_ne_nil n (List.map_eq_nil_iff.mp h)

theorem digitsToNat_foldl (b : List Char) (m : ℕ) :
    b.foldl (fun acc c => 10 * acc + chVal c) m =
      m * 10 ^ b.length + digitsToNat b := by
  induction b generalizing m with
  | nil => simp [digitsToNat]
  | cons c rest ih =>
    show List.foldl _ (10 * m + chVal c) rest = _
    rw [ih]
    have h2 : digitsToNat (c :: rest) =
        chVal c * 10 ^ rest.length + digitsToNat rest := by
      show List.foldl _ (10 * 0 + chVal c) rest = _
      rw [ih]
      ring_nf
    rw [h2]
    simp [List.length_cons]
    ring

theorem digitsToNat_append (a b : List Char) :
    digitsToNat (a ++ b) = digitsToNat a * 10 ^ b.length + digitsToNat b := by
  unfold digitsToNat
  rw [List.foldl_append]
  exact digitsToNat_foldl b _

theorem digitsToNat_natChars (n : ℕ) : digitsToNat (natChars n) = n := by
  induction n using Nat.strongRecOn with
  | _ n ih =>
    by_cases h : n < 10
    · unfold natChars
      rw [natDigits_small n h]
      show digitsToNat [digitCh n] = n
      unfold digitsToNat
      simp [chVal_digitCh n h]
    · unfold natChars
      rw [natDigits_step n (by omega), List.map_append]
      rw [digitsToNat_append]
      have hrec : digitsToNat ((natDigits (n / 10)).map digitCh) = n / 10 :=
        ih (n / 10) (by omega)
      rw [hrec]
      have hm : digitsToNat ([n % 10].map digitCh) = n % 10 := by
        show digitsToNat [digitCh (n % 10)] = n % 10
        unfold digitsToNat
        simp [chVal_digitCh (n % 10) (by omega)]
      rw [hm]
      simp
      omega

/-! ### Supporting lemmas: extraction and export (claim C1) -/

theorem qifFold_getLast (l : List (Option Transaction)) :
    ∀ (st : String × Dec × PyDate) (out : String × Dec × PyDate)
      (t : Transaction),
      qifFold l st = .ok out → l.getLast? = some (some t) →
      out.2.1 = t.balance ∧ out.2.2 = t.date := by
  induction l with
  | nil =>
    intro st out t hfold hlast
    simp at hlast
  | cons x rest ih =>
    intro st out t hfold hlast
    cases x with
    | none => simp [qifFold] at hfold
    | some t1 =>
      cases rest with
      | nil =>
        simp [qifFold] at hfold
        simp at hlast
        subst hlast
        rw [← hfold]
        exact ⟨rfl, rfl⟩
      | cons y ys =>
        rw [List.getLast?_cons_cons] at hlast
        exact ih _ out t hfold hlast

/-! ### Supporting lemmas: rule files and categorization (claim C3) -/

theorem parseRuleLines_acc (lines : List String) :
    ∀ acc, lines.foldlM parseStep acc =
      (parseRuleLines lines).map (fun r => acc ++ r) := by
  induction lines with
  | nil =>
    intro acc
    show Except.ok acc = Except.map (fun r => acc ++ r) (Except.ok [])
    simp [Except.map]
  | cons line rest ih =>
    intro acc
    have hcons : ∀ b : List (String × String),
        List.foldlM parseStep b (line :: rest) =
          parseStep b line >>= fun b2 => List.foldlM parseStep b2 rest := by
      intro b
      rw [List.foldlM_cons]
    rw [hcons acc]
    have hR : parseRuleLines (line :: rest) =
        parseStep [] line >>= fun b2 => List.foldlM parseStep b2 rest := hcons []
    rw [hR]
    by_cases hblank : (pyStrip line).data = []
    · have hpa : ∀ b : List (String × String), parseStep b line = .ok b := by
        intro b
        simp [parseStep, hblank]
      rw [hpa acc, hpa []]
      show List.foldlM parseStep acc rest =
        Except.map (fun r => acc ++ r) (List.foldlM parseStep [] rest)
      rw [ih acc]
      rfl
    · cases hp : pairOfSplit (splitCh '|' (pyStrip line).data) with
      | none =>
        have hpa : ∀ b : List (String × String),
            parseStep b line = .error .valueError := by
          intro b
          simp [parseStep, hblank, hp]
        rw [hpa acc, hpa []]
        rfl
      | some kv =>
        have hpa : ∀ b : List (String × String),
            parseStep b line = .ok (b ++ [kv]) := by
          intro b
          simp [parseStep, hblank, hp]
        rw [hpa acc, hpa []]
        show List.foldlM parseStep (acc ++ [kv]) rest =
          Except.map (fun r => acc ++ r) (List.foldlM parseStep ([] ++ [kv]) rest)
        rw [ih (acc ++ [kv]), ih ([] ++ [kv])]
        cases hr : parseRuleLines rest with
        | error e => rfl
        | ok r =>
          show Except.ok ((acc ++ [kv]) ++ r) =
            Except.map (fun r2 => acc ++ r2) (Except.ok (([] ++ [kv]) ++ r))
          simp [Except.map, List.append_assoc]

theorem insertAll_cons (m : List (String × String)) (kv : String × String)
    (r : List (String × String)) :
    insertAll m (kv :: r) = insertAll (dictInsert m kv.1 kv.2) r := rfl

theorem loadFileInto_parse (lines : List String) :
    ∀ m, loadFileInto m lines = (parseRuleLines lines).map (insertAll m) := by
  induction lines with
  | nil =>
    intro m
    show Except.ok m = Except.map (insertAll m) (Except.ok [])
    simp [Except.map, insertAll]
  | cons line rest ih =>
    intro m
    have hcons : ∀ b : List (String × String),
        List.foldlM loadStep b (line :: rest) =
          loadStep b line >>= fun b2 => List.foldlM loadStep b2 rest := by
      intro b
      rw [List.foldlM_cons]
    have hconsP : ∀ b : List (String × String),
        List.foldlM parseStep b (line :: rest) =
          parseStep b line >>= fun b2 => List.foldlM parseStep b2 rest := by
      intro b
      rw [List.foldlM_cons]
    show List.foldlM loadStep m (line :: rest) = _
    rw [hcons m]
    have hR : parseRuleLines (line :: rest) =
        parseStep [] line >>= fun b2 => List.foldlM parseStep b2 rest := hconsP []
    rw [hR]
    by_cases hblank : (pyStrip line).data = []
    · have hla : loadStep m line = .ok m := by
        simp [loadStep, hblank]
      have hpa : parseStep ([] : List (String × String)) line = .ok [] := by
        simp [parseStep, hblank]
      rw [hla, hpa]
      show List.foldlM loadStep m rest =
        Except.map (insertAll m) (List.foldlM parseStep [] rest)
      exact ih m
    · cases hp : pairOfSplit (splitCh '|' (pyStrip line).data) with
      | none =>
        have hla : loadStep m line = .error .valueError := by
          simp [loadStep, hblank, hp]
        have hpa : parseStep ([] : List (String × String)) line =
            .error .valueError := by
          simp [parseStep, hblank, hp]
        rw [hla, hpa]
        rfl
      | some kv =>
        have hla : loadStep m line = .ok (dictInsert m kv.1 kv.2) := by
          simp [loadStep, hblank, hp]
        have hpa : parseStep ([] : List (String × String)) line =
            .ok ([] ++ [kv]) := by
          simp [parseStep, hblank, hp]
        rw [hla, hpa]
        show List.foldlM loadStep (dictInsert m kv.1 kv.2) rest =
          Except.map (insertAll m) (List.foldlM parseStep ([] ++ [kv]) rest)
        have h3 : List.foldlM parseStep ([] ++ [kv]) rest =
            (parseRuleLines rest).map (fun r => ([] ++ [kv]) ++ r) :=
          parseRuleLines_acc rest ([] ++ [kv])
        rw [h3]
        have h4 : List.foldlM loadStep (dictInsert m kv.1 kv.2) rest =
            (parseRuleLines rest).map (insertAll (dictInsert m kv.1 kv.2)) :=
          ih (dictInsert m kv.1 kv.2)
        rw [h4]
        cases hr : parseRuleLines rest with
        | error e => rfl
        | ok r =>
          show Except.ok (insertAll (dictInsert m kv.1 kv.2) r) =
            Except.map (insertAll m) (Except.ok (([] ++ [kv]) ++ r))
          simp [Except.map, insertAll_cons]

theorem findFirst_eq_find (m : List (String × String)) (f : String) :
    findFirst m f = (m.find? (fun kv => containsCI kv.1 f)).map Prod.snd := by
  induction m with
  | nil => rfl
  | cons kv rest ih =>
    by_cases h : containsCI kv.1 f
    · simp [findFirst, h, List.find?_cons_of_pos]
    · have hb : containsCI kv.1 f = false := by
        cases hx : containsCI kv.1 f
        · rfl
        · exact absurd hx h
      simp [findFirst, hb, List.find?_cons_of_neg, ih]

theorem accountQif_of_fold_ok (acc : AccountSt) (st : String × Dec × PyDate)
    (h : qifFold acc.transactions ("", acc.currentBalance, acc.atDate) = .ok st) :
    accountQif acc = .ok
      (("!Account\nN" ++
        (match acc.bsb with | some b => b ++ " " | none => "") ++ acc.number ++
        "\nT" ++ acctTypeOf acc.typ ++ "\n") ++
       ("$" ++ (if st.2.1.isnanB then "0.00" else formatEmpty st.2.1) ++ "\n/" ++
        isoDate st.2.2 ++ "\n^\n!Type:" ++ acctTypeOf acc.typ ++ "\n") ++ st.1,
       {acc with closingBalance := st.2.1, closingBalanceDate := st.2.2}) := by
  unfold accountQif
  rw [h]

theorem accountQif_of_fold_error (acc : AccountSt) (e : PyErr)
    (h : qifFold acc.transactions ("", acc.currentBalance, acc.atDate) = .error e) :
    accountQif acc = .error e := by
  unfold accountQif
  rw [h]

/-! ### Claim C1 -/

/-- C1, counterexample to the claim as stated: on an account constructed
on 2026-10-12 (so closing_balance_date was initialized to that day), an
extraction over an empty row set for the requested end date 2024-01-31
returns zero but leaves closing_balance_date at the construction date —
not at the requested end date, as the claim asserts for the empty
sequence. -/
theorem c1_counterexample :
    downloadTransactions acc0 [] ⟨2024, 1, 31⟩ = .ok (acc0, .num false 0 (-2)) ∧
    acc0.transactions = [] ∧
    acc0.closingBalanceDate = ⟨2026, 10, 12⟩ ∧
    (⟨2026, 10, 12⟩ : PyDate) ≠ ⟨2024, 1, 31⟩ := by
  refine ⟨rfl, rfl, rfl, ?_⟩
  decide

/-- C1, amended: extraction over an empty row set returns zero and leaves
the whole account state unchanged (closing_balance remains the
construction-time zero and closing_balance_date the construction date, not
the requested end date).  When rows are present and the newest row
normalizes to a transaction t (the head of the processed list, hence the
last element of the reversed, oldest-first sequence), extraction sets
closing_balance to the balance field of t and closing_balance_date to the
date of t, and a subsequent qif export that succeeds recomputes and leaves
both fields at exactly those values. -/
theorem c1_closing_balance :
    (∀ (acc : AccountSt) (endDate : PyDate),
      downloadTransactions acc [] endDate = .ok (acc, .num false 0 (-2)))
    ∧
    (∀ (acc : AccountSt) (rows : List RawRow) (endDate : PyDate)
       (ts : List (Option Transaction)) (t : Transaction),
      rows.mapM (processRow acc.varNames acc.payeeMap) = .ok ts →
      ts.head? = some (some t) →
      ∃ acc2,
        downloadTransactions acc rows endDate = .ok (acc2, t.balance) ∧
        acc2.transactions = ts.reverse ∧
        acc2.closingBalance = t.balance ∧
        acc2.closingBalanceDate = t.date ∧
        ∀ out acc3, accountQif acc2 = .ok (out, acc3) →
          acc3.closingBalance = t.balance ∧ acc3.closingBalanceDate = t.date) := by
  constructor
  · intro acc endDate
    rfl
  · intro acc rows endDate ts t h1 h2
    have hts : ts ≠ [] := by
      intro h
      subst h
      simp at h2
    have hrows : rows ≠ [] := by
      intro h
      subst h
      have h0 : (pure [] : Except PyErr (List (Option Transaction))) = .ok ts := h1
      exact hts (Except.ok.inj h0).symm
    have hlen : ¬ rows.length = 0 := by
      cases rows with
      | nil => exact absurd rfl hrows
      | cons r rs => simp
    have hgl : ts.reverse.getLast? = some (some t) := by
      rw [List.getLast?_reverse]
      exact h2
    refine ⟨{ acc with
              transactions := ts.reverse
              closingBalance := t.balance
              closingBalanceDate := t.date },
            ?_, rfl, rfl, rfl, ?_⟩
    · unfold downloadTransactions
      rw [if_neg hlen, h1]
      simp only [hgl]
    · intro out acc3 hq
      cases hqf : qifFold (ts.reverse)
          ("", acc.currentBalance, acc.atDate) with
      | error e =>
        rw [accountQif_of_fold_error _ e hqf] at hq
        exact absurd hq (by simp)
      | ok st =>
        rw [accountQif_of_fold_ok _ st hqf] at hq
        obtain ⟨hb, hd⟩ := qifFold_getLast (ts.reverse) _ st t hqf hgl
        have hpair := Except.ok.inj hq
        injection hpair with ho ha
        rw [← ha]
        exact ⟨hb, hd⟩

/-- C1, witness: the amended theorem applied to the two-row example of the
spec (newest-first debit row of 15 Jan 24 with balance 100.00, then the
credit row of 10 Jan 24), and the empty-extraction clause applied to the
concrete account. -/
theorem c1_closing_balance_witness :
    downloadTransactions acc0 [] ⟨2024, 1, 31⟩ = .ok (acc0, .num false 0 (-2)) ∧
    (∃ acc2,
      downloadTransactions acc0 [row15, row10] ⟨2024, 1, 31⟩ =
        .ok (acc2, t15.balance) ∧
      acc2.transactions = [some t15, some t10].reverse ∧
      acc2.closingBalance = t15.balance ∧
      acc2.closingBalanceDate = t15.date ∧
      ∀ out acc3, accountQif acc2 = .ok (out, acc3) →
        acc3.closingBalance = t15.balance ∧ acc3.closingBalanceDate = t15.date) :=
  ⟨c1_closing_balance.1 acc0 ⟨2024, 1, 31⟩,
   c1_closing_balance.2 acc0 [row15, row10] ⟨2024, 1, 31⟩
     [some t15, some t10] t15 (by decide) (by decide)⟩

/-! ### Claim C2 -/

/-- C2: the detail blob of the claim does not split into location and
memo — re.split with maxsplit 1 finds the multi-space run and yields two
pieces, the code reverses them and appends one empty string, and the
two-target tuple assignment of line 370 then receives three values and
raises ValueError; so the example row aborts with an exception instead of
producing memo COFFEE SHOP.  A blob without a multi-space run does follow
the claim: the whole blob becomes the memo and the location is empty. -/
theorem c2_detail_split_eval :
    detailSplit "SOMEMERCHANT   COFFEE SHOP" = .error .valueError ∧
    detailSplit "PLAINBLOB" = .ok ("", "PLAINBLOB") := by
  constructor
  · decide
  · decide

/-! ### Claim C5 -/

/-- C5: the payee derivation of line 394 uses str.replace, which searches
for the literal pattern text, not for the regex it spells; no real memo
contains the literal text of those patterns, so the prefix is never
stripped: a memo beginning with INTERNET BPAY keeps that prefix in the
payee, contradicting the claim.  The empty-memo clause does hold: the
payee is then None. -/
theorem c5_payee_eval :
    payeeFromMemo "INTERNET BPAY 12345" = some "INTERNET BPAY 12345" ∧
    payeeFromMemo "" = none ∧
    ("INTERNET BPAY 12345" : String) ≠ "12345" := by
  refine ⟨?_, rfl, ?_⟩
  · decide
  · decide

/-! ### Claim C6 -/

/-- C6: the module context decimal.Context(prec=2) sets two significant
digits, not two fractional digits, and the constructor performs no
rounding at all; the sum of the amounts 100.00 and 23.45 — both
expressible with two fractional digits — is therefore rounded to the
decimal 1.2E+2 (value 120), not the exact-to-two-fractional-digits
123.45 the claim requires. -/
theorem c6_precision_eval :
    nabParse (some "100.00") = .ok (.num false 10000 (-2)) ∧
    nabParse (some "23.45") = .ok (.num false 2345 (-2)) ∧
    ctxAdd (.num false 10000 (-2)) (.num false 2345 (-2)) = .num false 12 1 ∧
    decValue (.num false 12 1) = some 120 ∧
    decValue (.num false 10000 (-2)) = some 100 ∧
    decValue (.num false 2345 (-2)) = some (2345 / 100) ∧
    (120 : ℚ) ≠ 100 + 2345 / 100 := by
  refine ⟨by decide, by decide, by decide, ?_, ?_, ?_, by norm_num⟩
  · show some ((1 : ℚ) * (12 : ℕ) * ((10 : ℚ) ^ (1 : ℤ).toNat)) = some 120
    norm_num
  · show some ((1 : ℚ) * (10000 : ℕ) * (((10 : ℚ) ^ (-(-2 : ℤ)).toNat)⁻¹)) = some 100
    norm_num [show ((2 : ℤ)).toNat = 2 from rfl]
  · show some ((1 : ℚ) * (2345 : ℕ) * (((10 : ℚ) ^ (-(-2 : ℤ)).toNat)⁻¹)) = some (2345 / 100)
    norm_num [show ((2 : ℤ)).toNat = 2 from rfl]

/-! ### Claim C7 -/

/-- C7: a row with fewer populated cells than the schema is logged and
process_row returns early — but the bare return returns None, and the
download loop appends that None to the transaction list, so the skipped
row does contribute an element; extraction completes (the closing-balance
getattr falls back over the None), but the qif export then reads the qif
attribute of None and raises AttributeError, so the condition is fatal
for the export, contradicting the claim. -/
theorem c7_schema_mismatch_eval :
    processRow sampleVarNames [] shortRow = .ok none ∧
    (downloadTransactions acc0 [shortRow, row15] ⟨2024, 1, 31⟩).toOption.map
      (fun pr => (pr.1.transactions, accountQif pr.1)) =
      some ([some t15, none], .error .attributeError) := by
  constructor
  · decide
  · decide

/-! ### Claim C4 -/

/-- C4, counterexample to the claim as stated: parse does raise for
unparseable text — the cleaned text abc reaches the Decimal constructor,
whose grammar rejects it with InvalidOperation. -/
theorem c4_counterexample :
    nabParse (some "abc") = .error .invalidOperation := by
  decide

/-- C4, amended: the three sentinel inputs — empty text, the N/A marker,
and an absent (None) value — all parse to the undefined NaN value, never
to zero and never an exception; adding NaN to any value on either side
yields NaN; but parse is not exception-free on arbitrary unparseable
text (see the counterexample). -/
theorem c4_sentinels :
    nabParse (some "") = .ok .nan ∧
    nabParse (some "N/A") = .ok .nan ∧
    nabParse none = .ok .nan ∧
    decValue .nan = none ∧
    (∀ d : Dec, ctxAdd .nan d = .nan ∧ ctxAdd d .nan = .nan) := by
  refine ⟨by decide, by decide, by decide, rfl, ?_⟩
  intro d
  constructor
  · rfl
  · cases d with
    | nan => rfl
    | num neg c e => rfl

/-! ### Claim C3 -/

/-! ### Supporting lemmas: calendar arithmetic (claim C9) -/

theorem daysInMonth_bounds (y m : ℕ) (h1 : 1 ≤ m) (h2 : m ≤ 12) :
    28 ≤ daysInMonth y m ∧ daysInMonth y m ≤ 31 := by
  interval_cases m <;> first
    | (constructor <;> decide)
    | (unfold daysInMonth
       by_cases hl : isLeap y
       · rw [if_pos hl]
         constructor <;> decide
       · rw [if_neg hl]
         constructor <;> decide)

theorem addDaysO_within (k : ℕ) :
    ∀ (y m day : ℕ), 1 ≤ day → day + k ≤ daysInMonth y m →
      addDaysO k ⟨y, m, day⟩ = some ⟨y, m, day + k⟩ := by
  induction k with
  | zero => intro y m day h1 h2; rfl
  | succ k ih =>
    intro y m day h1 h2
    show (succDay ⟨y, m, day⟩).bind (addDaysO k) = _
    have hlt : day < daysInMonth y m := by omega
    have hs : succDay ⟨y, m, day⟩ = some ⟨y, m, day + 1⟩ := by
      unfold succDay
      rw [if_pos hlt]
    rw [hs]
    show addDaysO k ⟨y, m, day + 1⟩ = _
    rw [ih y m (day + 1) (by omega) (by omega)]
    have : day + 1 + k = day + (k + 1) := by omega
    rw [this]

theorem addDaysO_split (a : ℕ) :
    ∀ (b : ℕ) (d : PyDate),
      addDaysO (a + b) d = (addDaysO a d).bind (addDaysO b) := by
  induction a with
  | zero =>
    intro b d
    have h0 : 0 + b = b := by omega
    rw [h0]
    rfl
  | succ a ih =>
    intro b d
    have h1 : a + 1 + b = (a + b) + 1 := by omega
    rw [h1]
    show (succDay d).bind (addDaysO (a + b)) = ((succDay d).bind (addDaysO a)).bind (addDaysO b)
    cases succDay d with
    | none => rfl
    | some d2 =>
      show addDaysO (a + b) d2 = (addDaysO a d2).bind (addDaysO b)
      exact ih b d2

theorem succDay_mk (y m day : ℕ) :
    succDay ⟨y, m, day⟩ =
      (if day < daysInMonth y m then some ⟨y, m, day + 1⟩
       else if m < 12 then some ⟨y, m + 1, 1⟩
       else if y < 9999 then some ⟨y + 1, 1, 1⟩
       else none) := rfl

theorem predDay_mk (y m day : ℕ) :
    predDay ⟨y, m, day⟩ =
      (if 1 < day then some ⟨y, m, day - 1⟩
       else if 1 < m then some ⟨y, m - 1, daysInMonth y (m - 1)⟩
       else if 1 < y then some ⟨y - 1, 12, 31⟩
       else none) := rfl

theorem monthStart_mk (y m day : ℕ) :
    monthStart ⟨y, m, day⟩ = ⟨y, m, 1⟩ := rfl

theorem succDay_monthEndDay (y m : ℕ) (hm2 : m ≤ 12)
    (hy2 : y ≤ 9999) (hnot : ¬(y = 9999 ∧ m = 12)) :
    succDay ⟨y, m, daysInMonth y m⟩ =
      some (if m < 12 then (⟨y, m + 1, 1⟩ : PyDate) else ⟨y + 1, 1, 1⟩) := by
  rw [succDay_mk, if_neg (by omega)]
  by_cases h12 : m < 12
  · rw [if_pos h12, if_pos h12]
  · have hm12 : m = 12 := by omega
    have hy : y < 9999 := by
      rcases Nat.lt_or_ge y 9999 with h | h
      · exact h
      · exact absurd ⟨by omega, hm12⟩ hnot
    rw [if_neg h12, if_pos hy, if_neg h12]

theorem monthNext_eq (y m : ℕ) (hm1 : 1 ≤ m) (hm2 : m ≤ 12)
    (hy1 : 1 ≤ y) (hy2 : y ≤ 9999) (hnot : ¬(y = 9999 ∧ m = 12)) :
    addDaysO 31 ⟨y, m, 1⟩ =
      some (if m < 12 then (⟨y, m + 1, 32 - daysInMonth y m⟩ : PyDate)
            else ⟨y + 1, 1, 32 - daysInMonth y m⟩) := by
  obtain ⟨hd1, hd2⟩ := daysInMonth_bounds y m hm1 hm2
  have h31 : 31 = (daysInMonth y m - 1) + ((31 - daysInMonth y m) + 1) := by omega
  rw [h31, addDaysO_split]
  rw [addDaysO_within (daysInMonth y m - 1) y m 1 (by omega) (by omega)]
  have hday : 1 + (daysInMonth y m - 1) = daysInMonth y m := by omega
  rw [hday]
  show (succDay ⟨y, m, daysInMonth y m⟩).bind
    (addDaysO (31 - daysInMonth y m)) = _
  rw [succDay_monthEndDay y m hm2 hy2 hnot]
  by_cases h12 : m < 12
  · rw [if_pos h12, if_pos h12]
    show addDaysO (31 - daysInMonth y m) ⟨y, m + 1, 1⟩ = _
    obtain ⟨he1, he2⟩ := daysInMonth_bounds y (m + 1) (by omega) (by omega)
    rw [addDaysO_within (31 - daysInMonth y m) y (m + 1) 1 (by omega) (by omega)]
    have h32 : 1 + (31 - daysInMonth y m) = 32 - daysInMonth y m := by omega
    rw [h32]
  · rw [if_neg h12, if_neg h12]
    show addDaysO (31 - daysInMonth y m) ⟨y + 1, 1, 1⟩ = _
    obtain ⟨he1, he2⟩ := daysInMonth_bounds (y + 1) 1 (by omega) (by omega)
    rw [addDaysO_within (31 - daysInMonth y m) (y + 1) 1 1 (by omega) (by omega)]
    have h32 : 1 + (31 - daysInMonth y m) = 32 - daysInMonth y m := by omega
    rw [h32]

/-! ### Claim C9 -/

/-- C9, counterexample to the claim as stated: the claim quantifies over
every date, but datetime.date is bounded below by 0001-01-01; for a date
in January of year 1, month_end_prev computes month_start minus one day,
which raises OverflowError, so the claimed equation has no value there. -/
theorem c9_counterexample :
    (⟨1, 1, 15⟩ : PyDate).validB = true ∧
    monthEndPrev ⟨1, 1, 15⟩ = none ∧
    ¬ ∃ e, monthEndPrev ⟨1, 1, 15⟩ = some e ∧
        succDay e = some (monthStart ⟨1, 1, 15⟩) := by
  refine ⟨by decide, by decide, ?_⟩
  rintro ⟨e, he, h2⟩
  rw [show monthEndPrev ⟨1, 1, 15⟩ = none from by decide] at he
  exact absurd he (by simp)

/-- C9, amended: for every valid date d outside January of year 1,
month_end_prev d plus one day equals month_start d; for every valid date
d outside December of year 9999, month_next d exists, is its own
month_start, month_end d is the day before month_next d (succDay of
month_end is month_next), and month_next.month_start is strictly greater
than month_end — all computed through the generic day-stepping arithmetic,
hence correct across variable month lengths and leap years.  At the two
excluded boundary months the operations raise OverflowError (see the
counterexample). -/
theorem c9_month_arithmetic (d : PyDate) (hv : d.validB = true) :
    (¬(d.year = 1 ∧ d.month = 1) →
      ∃ e, monthEndPrev d = some e ∧ succDay e = some (monthStart d))
    ∧
    (¬(d.year = 9999 ∧ d.month = 12) →
      ∃ n e, monthNext d = some n ∧ monthStart n = n ∧
        monthEnd d = some e ∧ succDay e = some n ∧ dateLtB e n = true) := by
  have hb : 1 ≤ d.year ∧ d.year ≤ 9999 ∧ 1 ≤ d.month ∧ d.month ≤ 12 ∧
      1 ≤ d.day ∧ d.day ≤ daysInMonth d.year d.month := by
    unfold PyDate.validB at hv
    simp only [Bool.and_eq_true, decide_eq_true_eq] at hv
    omega
  obtain ⟨hy1, hy2, hm1, hm2, _, _⟩ := hb
  constructor
  · intro hnot
    have hms : monthStart d = ⟨d.year, d.month, 1⟩ := rfl
    by_cases hm : d.month = 1
    · have hy : 2 ≤ d.year := by
        rcases Nat.lt_or_ge d.year 2 with h | h
        · exact absurd ⟨by omega, hm⟩ hnot
        · exact h
      refine ⟨⟨d.year - 1, 12, 31⟩, ?_, ?_⟩
      · unfold monthEndPrev
        rw [hms, hm, predDay_mk]
        rw [if_neg (by omega), if_neg (by omega), if_pos (by omega)]
      · rw [succDay_mk]
        have h31 : daysInMonth (d.year - 1) 12 = 31 := rfl
        rw [h31, if_neg (by omega), if_neg (by omega), if_pos (by omega)]
        rw [hms, hm]
        have hyy : d.year - 1 + 1 = d.year := by omega
        rw [hyy]
    · have hmge : 2 ≤ d.month := by omega
      obtain ⟨hp1, hp2⟩ :=
        daysInMonth_bounds d.year (d.month - 1) (by omega) (by omega)
      refine ⟨⟨d.year, d.month - 1, daysInMonth d.year (d.month - 1)⟩, ?_, ?_⟩
      · unfold monthEndPrev
        rw [hms, predDay_mk]
        rw [if_neg (by omega), if_pos (by omega)]
      · rw [succDay_mk]
        rw [if_neg (by omega), if_pos (by omega)]
        rw [hms]
        have hmm : d.month - 1 + 1 = d.month := by omega
        rw [hmm]
  · intro hnot
    have hadd := monthNext_eq d.year d.month hm1 hm2 hy1 hy2 hnot
    obtain ⟨hd1, hd2⟩ := daysInMonth_bounds d.year d.month hm1 hm2
    by_cases h12 : d.month < 12
    · rw [if_pos h12] at hadd
      have hn : monthNext d = some ⟨d.year, d.month + 1, 1⟩ := by
        show (addDaysO 31 (monthStart d)).map monthStart = _
        rw [show monthStart d = ⟨d.year, d.month, 1⟩ from rfl, hadd]
        rfl
      have he : monthEnd d =
          some ⟨d.year, d.month, daysInMonth d.year d.month⟩ := by
        unfold monthEnd
        rw [hn]
        show monthEndPrev ⟨d.year, d.month + 1, 1⟩ = _
        unfold monthEndPrev
        rw [monthStart_mk, predDay_mk]
        rw [if_neg (by omega), if_pos (by omega)]
        have hmm : d.month + 1 - 1 = d.month := by omega
        rw [hmm]
      refine ⟨_, _, hn, rfl, he, ?_, ?_⟩
      · rw [succDay_mk, if_neg (by omega), if_pos h12]
      · unfold dateLtB
        simp
    · rw [if_neg h12] at hadd
      have hm12 : d.month = 12 := by omega
      have hy : d.year < 9999 := by
        rcases Nat.lt_or_ge d.year 9999 with h | h
        · exact h
        · exact absurd ⟨by omega, hm12⟩ hnot
      have hn : monthNext d = some ⟨d.year + 1, 1, 1⟩ := by
        show (addDaysO 31 (monthStart d)).map monthStart = _
        rw [show monthStart d = ⟨d.year, d.month, 1⟩ from rfl, hadd]
        rfl
      have he : monthEnd d = some ⟨d.year, 12, 31⟩ := by
        unfold monthEnd
        rw [hn]
        show monthEndPrev ⟨d.year + 1, 1, 1⟩ = _
        unfold monthEndPrev
        rw [monthStart_mk, predDay_mk]
        rw [if_neg (by omega), if_neg (by omega), if_pos (by omega)]
        have hyy : d.year + 1 - 1 = d.year := by omega
        rw [hyy]
      refine ⟨_, _, hn, rfl, he, ?_, ?_⟩
      · rw [succDay_mk]
        have h31 : daysInMonth d.year 12 = 31 := rfl
        rw [h31, if_neg (by omega), if_neg (by omega), if_pos (by omega)]
      · unfold dateLtB
        simp

/-- C9, witness: the amended theorem applied to 2024-02-10, a date in the
February of a leap year. -/
theorem c9_month_arithmetic_witness :
    (∃ e, monthEndPrev ⟨2024, 2, 10⟩ = some e ∧
      succDay e = some (monthStart ⟨2024, 2, 10⟩)) ∧
    (∃ n e, monthNext ⟨2024, 2, 10⟩ = some n ∧ monthStart n = n ∧
      monthEnd ⟨2024, 2, 10⟩ = some e ∧ succDay e = some n ∧
      dateLtB e n = true) :=
  ⟨(c9_month_arithmetic ⟨2024, 2, 10⟩ (by decide)).1 (by decide),
   (c9_month_arithmetic ⟨2024, 2, 10⟩ (by decide)).2 (by decide)⟩

/-! ### Supporting lemmas: character classes and string surgery
(claims C8 and C10) -/

theorem isDig_iff (c : Char) :
    isDig c = true ↔ (c = '0' ∨ c = '1' ∨ c = '2' ∨ c = '3' ∨ c = '4' ∨
      c = '5' ∨ c = '6' ∨ c = '7' ∨ c = '8' ∨ c = '9') := by
  unfold isDig
  simp only [Bool.or_eq_true, beq_iff_eq]
  tauto

theorem isDig_facts (c : Char) (h : isDig c = true) :
    lowerCh c = c ∧ pyWs c = false ∧
    c ≠ '\n' ∧ c ≠ '+' ∧ c ≠ ',' ∧ c ≠ '$' ∧ c ≠ ' ' ∧ c ≠ 'm' ∧
    c ≠ '-' ∧ c ≠ '.' ∧ c ≠ 'e' ∧ c ≠ 'E' ∧ c ≠ 'n' ∧ c ≠ 's' := by
  rw [isDig_iff] at h
  rcases h with rfl | rfl | rfl | rfl | rfl | rfl | rfl | rfl | rfl | rfl <;>
    exact ⟨by decide, by decide, by decide, by decide, by decide, by decide,
           by decide, by decide, by decide, by decide, by decide, by decide,
           by decide, by decide⟩

theorem splitCh_not_mem (c : Char) (l : List Char) (h : c ∉ l) :
    splitCh c l = [l] := by
  induction l with
  | nil => rfl
  | cons a rest ih =>
    have hrest : c ∉ rest := fun hm => h (List.mem_cons_of_mem a hm)
    have ha : a ≠ c := fun he => h (he ▸ List.mem_cons_self a rest)
    unfold splitCh
    rw [ih hrest]
    simp [ha]

theorem splitCh_append_sep (c : Char) (a b : List Char)
    (ha : c ∉ a) (hb : c ∉ b) :
    splitCh c (a ++ c :: b) = [a, b] := by
  induction a with
  | nil =>
    show splitCh c (c :: b) = [[], b]
    unfold splitCh
    rw [splitCh_not_mem c b hb]
    simp
  | cons x a2 ih =>
    have hx : x ≠ c := fun he => ha (he ▸ List.mem_cons_self x a2)
    have ha2 : c ∉ a2 := fun hm => ha (List.mem_cons_of_mem x hm)
    show splitCh c (x :: (a2 ++ c :: b)) = [x :: a2, b]
    unfold splitCh
    rw [ih ha2]
    simp [hx]

theorem dropWhile_head_false (p : Char → Bool) (l : List Char)
    (h : ∀ c, l.head? = some c → p c = false) : l.dropWhile p = l := by
  cases l with
  | nil => rfl
  | cons a rest =>
    have ha : p a = false := h a rfl
    simp [List.dropWhile_cons, ha]

theorem stripL_ends (l : List Char)
    (h1 : ∀ c, l.head? = some c → pyWs c = false)
    (h2 : ∀ c, l.getLast? = some c → pyWs c = false) : stripL l = l := by
  unfold stripL
  rw [dropWhile_head_false pyWs l h1]
  have hrev : ∀ c, l.reverse.head? = some c → pyWs c = false := by
    intro c hc
    rw [List.head?_reverse] at hc
    exact h2 c hc
  rw [dropWhile_head_false pyWs l.reverse hrev, List.reverse_reverse]

theorem dropWhile_ws_replicate (k : ℕ) (l : List Char) :
    (List.replicate k ' ' ++ l).dropWhile pyWs = l.dropWhile pyWs := by
  induction k with
  | zero => rfl
  | succ k ih =>
    show (' ' :: (List.replicate k ' ' ++ l)).dropWhile pyWs = _
    rw [List.dropWhile_cons]
    simp only [show pyWs ' ' = true from rfl, if_true]
    exact ih

theorem stripL_pad6 (l : List Char) (hne : l ≠ [])
    (h1 : ∀ c, l.head? = some c → pyWs c = false)
    (h2 : ∀ c, l.getLast? = some c → pyWs c = false) :
    stripL (pad6 l) = l := by
  unfold stripL pad6
  rw [dropWhile_ws_replicate, dropWhile_head_false pyWs l h1]
  have hrev : ∀ c, l.reverse.head? = some c → pyWs c = false := by
    intro c hc
    rw [List.head?_reverse] at hc
    exact h2 c hc
  rw [dropWhile_head_false pyWs l.reverse hrev, List.reverse_reverse]

theorem isPrefixOf_mem (p : List Char) :
    ∀ (l : List Char) (c : Char), p.isPrefixOf l = true → c ∈ p → c ∈ l := by
  induction p with
  | nil =>
    intro l c _ hc
    exact absurd hc (List.not_mem_nil c)
  | cons x p2 ih =>
    intro l c hpre hc
    cases l with
    | nil => simp [List.isPrefixOf] at hpre
    | cons y l2 =>
      simp only [List.isPrefixOf, Bool.and_eq_true, beq_iff_eq] at hpre
      rcases List.mem_cons.mp hc with rfl | hc2
      · rw [hpre.1]
        exact List.mem_cons_self y l2
      · exact List.mem_cons_of_mem y (ih l2 c hpre.2 hc2)

theorem replaceFuel_not_mem (pat repl : List Char) (ch : Char)
    (hch : ch ∈ pat) : ∀ (fuel : ℕ) (l : List Char), ch ∉ l →
      replaceFuel pat repl fuel l = l := by
  intro fuel
  induction fuel with
  | zero => intro l _; rfl
  | succ fuel ih =>
    intro l hl
    cases l with
    | nil => rfl
    | cons a rest =>
      have hnp : ¬(pat ≠ [] ∧ pat.isPrefixOf (a :: rest) = true) := by
        rintro ⟨_, hpre⟩
        exact hl (isPrefixOf_mem pat (a :: rest) ch hpre hch)
      have hrest : ch ∉ rest := fun hm => hl (List.mem_cons_of_mem a hm)
      unfold replaceFuel
      simp only [ne_eq]
      rw [if_neg (by simpa using hnp)]
      rw [ih rest hrest]

theorem breakExp_not_mem (l : List Char)
    (h : ∀ c ∈ l, ¬(c = 'e' ∨ c = 'E')) : breakExp l = (l, none) := by
  induction l with
  | nil => rfl
  | cons a rest ih =>
    have ha : ¬(a = 'e' ∨ a = 'E') := h a (List.mem_cons_self a rest)
    have hr : ∀ c ∈ rest, ¬(c = 'e' ∨ c = 'E') :=
      fun c hc => h c (List.mem_cons_of_mem a hc)
    unfold breakExp
    rw [if_neg ha, ih hr]

theorem breakDot_append_sep (a b : List Char) (ha : '.' ∉ a) :
    breakDot (a ++ '.' :: b) = (a, some b) := by
  induction a with
  | nil =>
    show breakDot ('.' :: b) = ([], some b)
    unfold breakDot
    rw [if_pos rfl]
  | cons x a2 ih =>
    have hx : ¬ x = '.' := fun he => ha (he ▸ List.mem_cons_self x a2)
    have ha2 : '.' ∉ a2 := fun hm => ha (List.mem_cons_of_mem x hm)
    show breakDot (x :: (a2 ++ '.' :: b)) = (x :: a2, some b)
    unfold breakDot
    rw [if_neg hx, ih ha2]

theorem filter_pass (p : Char → Bool) (l : List Char)
    (h : ∀ c ∈ l, p c = true) : l.filter p = l := by
  induction l with
  | nil => rfl
  | cons a rest ih =>
    rw [List.filter_cons, if_pos (h a (List.mem_cons_self a rest))]
    rw [ih (fun c hc => h c (List.mem_cons_of_mem a hc))]

/-! ### Supporting lemmas: digit strings (claims C8 and C10) -/

theorem twoDigCh_all_dig (n : ℕ) : ∀ c ∈ twoDigCh n, isDig c = true := by
  intro c hc
  unfold twoDigCh at hc
  simp only [List.mem_cons, List.not_mem_nil, or_false] at hc
  rcases hc with rfl | rfl
  · exact isDig_digitCh (n / 10)
  · exact isDig_digitCh (n % 10)

theorem digitsToNat_twoDigCh (n : ℕ) (h : n < 100) :
    digitsToNat (twoDigCh n) = n := by
  unfold twoDigCh digitsToNat
  simp only [List.foldl]
  rw [chVal_digitCh (n / 10) (by omega), chVal_digitCh (n % 10) (by omega)]
  omega

theorem natDigits_split100 (c : ℕ) (h : 100 ≤ c) :
    natDigits c = natDigits (c / 100) ++ [c / 10 % 10, c % 10] := by
  rw [natDigits_step c (by omega), natDigits_step (c / 10) (by omega)]
  have h1 : c / 10 / 10 = c / 100 := by
    rw [Nat.div_div_eq_div_mul]
  rw [h1]
  simp

theorem natChars_split100 (c : ℕ) (h : 100 ≤ c) :
    natChars c = natChars (c / 100) ++ twoDigCh (c % 100) := by
  unfold natChars
  rw [natDigits_split100 c h, List.map_append]
  have h2 : twoDigCh (c % 100) = [digitCh (c / 10 % 10), digitCh (c % 10)] := by
    unfold twoDigCh
    have ha : c % 100 / 10 = c / 10 % 10 := by
      rw [show (100 : ℕ) = 10 * 10 from rfl, Nat.mod_mul_right_div_self]
    have hb : c % 100 % 10 = c % 10 := by
      rw [Nat.mod_mod_of_dvd c (by norm_num)]
    rw [ha, hb]
  rw [h2]
  rfl

theorem natChars_len1 (c : ℕ) (h : c < 10) : natChars c = [digitCh c] := by
  unfold natChars
  rw [natDigits_small c h]
  rfl

theorem natChars_len2 (c : ℕ) (h1 : 10 ≤ c) (h2 : c < 100) :
    natChars c = [digitCh (c / 10), digitCh (c % 10)] := by
  unfold natChars
  rw [natDigits_step c h1, natDigits_small (c / 10) (by omega)]
  rfl

theorem decCents_exp2 (c : ℕ) : decCents c (-2) = c := by
  unfold decCents
  rw [if_pos (by omega)]
  norm_num

theorem twoDigCh_length (n : ℕ) : (twoDigCh n).length = 2 := rfl

theorem twoDigCh_ne_nil (n : ℕ) : twoDigCh n ≠ [] := by
  unfold twoDigCh
  simp

theorem formatEmpty_exp2 (neg : Bool) (c : ℕ) :
    formatEmpty (.num neg c (-2)) =
      ⟨(if neg then ['-'] else []) ++
        natChars (c / 100) ++ '.' :: twoDigCh (c % 100)⟩ := by
  simp only [formatEmpty]
  rcases Nat.lt_or_ge c 10 with h10 | h10
  · have hds : natChars c = [digitCh c] := natChars_len1 c h10
    have h100 : c / 100 = 0 := by omega
    have hm100 : c % 100 = c := by omega
    have h10d : c / 10 = 0 := by omega
    have hm10 : c % 10 = c := by omega
    rw [hds, h100, hm100]
    have hdp : (if ((-2 : ℤ) ≤ 0 ∧ (-6 : ℤ) < -2 + ([digitCh c].length : ℤ))
        then ((-2 : ℤ) + ([digitCh c].length : ℤ)) else 1) = -1 := by
      norm_num
    rw [hdp]
    norm_num
    rw [show natChars 0 = ['0'] from rfl]
    unfold twoDigCh
    rw [h10d, hm10]
    simp [digitCh]
  · rcases Nat.lt_or_ge c 100 with h100b | h100b
    · have hds : natChars c = [digitCh (c / 10), digitCh (c % 10)] :=
        natChars_len2 c h10 h100b
      have h100 : c / 100 = 0 := by omega
      have hm100 : c % 100 = c := by omega
      rw [hds, h100, hm100]
      have hdp : (if ((-2 : ℤ) ≤ 0 ∧
          (-6 : ℤ) < -2 + ([digitCh (c / 10), digitCh (c % 10)].length : ℤ))
          then ((-2 : ℤ) + ([digitCh (c / 10), digitCh (c % 10)].length : ℤ))
          else 1) = 0 := by
        norm_num
      rw [hdp]
      norm_num
      rw [show natChars 0 = ['0'] from rfl]
      unfold twoDigCh
      simp [digitCh]
    · have hsplit : natChars c = natChars (c / 100) ++ twoDigCh (c % 100) :=
        natChars_split100 c h100b
      have hlenA : 1 ≤ (natChars (c / 100)).length := by
        cases hh : natChars (c / 100) with
        | nil => exact absurd hh (natChars_ne_nil (c / 100))
        | cons a t => simp
      rw [hsplit]
      have hlen : (((natChars (c / 100) ++ twoDigCh (c % 100)).length) : ℤ) =
          ((natChars (c / 100)).length : ℤ) + 2 := by
        rw [List.length_append, twoDigCh_length]
        push_cast
        ring
      have hdp : (if ((-2 : ℤ) ≤ 0 ∧ (-6 : ℤ) <
          -2 + (((natChars (c / 100) ++ twoDigCh (c % 100)).length) : ℤ))
          then ((-2 : ℤ) + (((natChars (c / 100) ++ twoDigCh (c % 100)).length) : ℤ))
          else 1) = ((natChars (c / 100)).length : ℤ) := by
        rw [if_pos ⟨by norm_num, by rw [hlen]; omega⟩, hlen]
        ring
      rw [hdp]
      simp only [if_neg (show ¬(((natChars (c / 100)).length : ℤ) ≤ 0) by omega),
        if_neg (show ¬((((natChars (c / 100) ++ twoDigCh (c % 100)).length) : ℤ) <
          ((natChars (c / 100)).length : ℤ)) by rw [hlen]; omega),
        Int.toNat_natCast, List.take_left, List.drop_left,
        if_neg (twoDigCh_ne_nil (c % 100)),
        if_pos (show ((-2 : ℤ) +
          (((natChars (c / 100) ++ twoDigCh (c % 100)).length) : ℤ)) -
          ((natChars (c / 100)).length : ℤ) = 0 by rw [hlen]; ring)]
      simp

theorem map_lowerCh_id (l : List Char) (h : ∀ ch ∈ l, lowerCh ch = ch) :
    l.map lowerCh = l := by
  induction l with
  | nil => rfl
  | cons a rest ih =>
    rw [List.map_cons, h a (List.mem_cons_self a rest),
      ih (fun ch hch => h ch (List.mem_cons_of_mem a hch))]

theorem decParseSigned_canonical (negF : Bool) (u c2 : ℕ) (hc : c2 < 100) :
    decParseSigned negF (natChars u ++ '.' :: twoDigCh c2) =
      .ok (.num negF (u * 100 + c2) (-2)) := by
  obtain ⟨dh, dt, hdh⟩ : ∃ h t, natChars u = h :: t :=
    List.exists_cons_of_ne_nil (natChars_ne_nil u)
  have hdhdig : isDig dh = true :=
    natChars_all_dig u dh (by rw [hdh]; exact List.mem_cons_self dh dt)
  have hfacts := isDig_facts dh hdhdig
  have hclass : ∀ ch ∈ natChars u ++ '.' :: twoDigCh c2,
      isDig ch = true ∨ ch = '.' := by
    intro ch hch
    rcases List.mem_append.mp hch with h1 | h1
    · exact Or.inl (natChars_all_dig u ch h1)
    · rcases List.mem_cons.mp h1 with rfl | h2
      · exact Or.inr rfl
      · exact Or.inl (twoDigCh_all_dig c2 ch h2)
  have hlow : (natChars u ++ '.' :: twoDigCh c2).map lowerCh =
      natChars u ++ '.' :: twoDigCh c2 := by
    apply map_lowerCh_id
    intro ch hch
    rcases hclass ch hch with hd | rfl
    · exact (isDig_facts ch hd).1
    · decide
  have hRcons : natChars u ++ '.' :: twoDigCh c2 =
      dh :: (dt ++ '.' :: twoDigCh c2) := by
    rw [hdh]
    rfl
  simp only [decParseSigned]
  rw [hlow]
  rw [if_neg (by
    rintro ⟨h1, _⟩
    rw [hRcons, List.take_succ_cons] at h1
    have := (List.cons.injEq dh _ 'n' _).mp h1
    exact hfacts.2.2.2.2.2.2.2.2.2.2.2.2.1 this.1)]
  rw [if_neg (by
    rintro ⟨h1, _⟩
    rw [hRcons, List.take_succ_cons] at h1
    have := (List.cons.injEq dh _ 's' _).mp h1
    exact hfacts.2.2.2.2.2.2.2.2.2.2.2.2.2 this.1)]
  rw [breakExp_not_mem (natChars u ++ '.' :: twoDigCh c2) (by
    intro ch hch
    rcases hclass ch hch with hd | rfl
    · have hf := isDig_facts ch hd
      rintro (rfl | rfl)
      · exact hf.2.2.2.2.2.2.2.2.2.2.1 rfl
      · exact hf.2.2.2.2.2.2.2.2.2.2.2.1 rfl
    · rintro (h | h) <;> exact absurd h (by decide))]
  rw [breakDot_append_sep (natChars u) (twoDigCh c2) (by
    intro hm
    have hd := natChars_all_dig u '.' hm
    exact (isDig_facts '.' hd).2.2.2.2.2.2.2.2.2.1 rfl)]
  dsimp only
  rw [if_pos (by
    refine ⟨List.all_eq_true.mpr (fun x hx => natChars_all_dig u x hx),
            List.all_eq_true.mpr (fun x hx => twoDigCh_all_dig c2 x hx), ?_⟩
    rintro ⟨h1, _⟩
    exact natChars_ne_nil u h1)]
  have hco : digitsToNat (natChars u ++ twoDigCh c2) = u * 100 + c2 := by
    rw [digitsToNat_append, digitsToNat_natChars, digitsToNat_twoDigCh c2 hc,
      twoDigCh_length]
    norm_num
  have hex : (0 : ℤ) - ((twoDigCh c2).length : ℤ) = -2 := by
    rw [twoDigCh_length]
    norm_num
  simp only [Option.getD_some]
  rw [hco, hex]

theorem canon2_class (neg : Bool) (u c2 : ℕ) :
    ∀ ch ∈ (canon2 neg u c2).data,
      isDig ch = true ∨ ch = '-' ∨ ch = '.' := by
  intro ch hch
  unfold canon2 at hch
  rcases List.mem_append.mp hch with h1 | h1
  · rcases List.mem_append.mp h1 with h2 | h2
    · cases neg with
      | true =>
        simp only [if_true] at h2
        simp at h2
        exact Or.inr (Or.inl h2)
      | false => simp at h2
    · exact Or.inl (natChars_all_dig u ch h2)
  · rcases List.mem_cons.mp h1 with rfl | h2
    · exact Or.inr (Or.inr rfl)
    · exact Or.inl (twoDigCh_all_dig c2 ch h2)

theorem canon2_head (neg : Bool) (u c2 : ℕ) :
    ∃ ch t, (canon2 neg u c2).data = ch :: t ∧ pyWs ch = false ∧
      (ch ≠ '-' → isDig ch = true) := by
  cases neg with
  | true =>
    refine ⟨'-', natChars u ++ '.' :: twoDigCh c2, rfl, by decide, ?_⟩
    intro h
    exact absurd rfl h
  | false =>
    obtain ⟨dh, dt, hdh⟩ : ∃ h t, natChars u = h :: t :=
      List.exists_cons_of_ne_nil (natChars_ne_nil u)
    have hdig : isDig dh = true :=
      natChars_all_dig u dh (by rw [hdh]; exact List.mem_cons_self dh dt)
    refine ⟨dh, dt ++ '.' :: twoDigCh c2, ?_, (isDig_facts dh hdig).2.1,
      fun _ => hdig⟩
    show [] ++ natChars u ++ '.' :: twoDigCh c2 = _
    rw [hdh]
    rfl

theorem canon2_getLast (neg : Bool) (u c2 : ℕ) :
    (canon2 neg u c2).data.getLast? = some (digitCh (c2 % 10)) := by
  unfold canon2
  show ((if neg then ['-'] else []) ++ natChars u ++ '.' :: twoDigCh c2).getLast? = _
  rw [List.getLast?_append_of_ne_nil _ (by simp : ('.' :: twoDigCh c2) ≠ [])]
  rfl

theorem canon2_ne_nil (neg : Bool) (u c2 : ℕ) : (canon2 neg u c2).data ≠ [] := by
  obtain ⟨ch, t, hct, _, _⟩ := canon2_head neg u c2
  rw [hct]
  simp

theorem pyDecOfChars_canonical (negF : Bool) (u c2 : ℕ) (hc : c2 < 100) :
    pyDecOfChars ((if negF then ['-'] else []) ++ natChars u ++ '.' :: twoDigCh c2) =
      .ok (.num negF (u * 100 + c2) (-2)) := by
  cases negF with
  | true =>
    show pyDecOfChars ('-' :: (natChars u ++ '.' :: twoDigCh c2)) = _
    simp only [pyDecOfChars]
    rw [if_true]
    exact decParseSigned_canonical true u c2 hc
  | false =>
    obtain ⟨dh, dt, hdh⟩ : ∃ h t, natChars u = h :: t :=
      List.exists_cons_of_ne_nil (natChars_ne_nil u)
    have hdig : isDig dh = true :=
      natChars_all_dig u dh (by rw [hdh]; exact List.mem_cons_self dh dt)
    have hfacts := isDig_facts dh hdig
    show pyDecOfChars (natChars u ++ '.' :: twoDigCh c2) = _
    rw [hdh, List.cons_append]
    simp only [pyDecOfChars]
    rw [if_neg hfacts.2.2.2.2.2.2.2.2.1, if_neg hfacts.2.2.2.1]
    rw [← List.cons_append, ← hdh]
    exact decParseSigned_canonical false u c2 hc

theorem amountText_no_dr (neg : Bool) (u c2 : ℕ) :
    amountText neg false u c2 = canon2 neg u c2 := by
  unfold amountText
  show (⟨(canon2 neg u c2).data ++ []⟩ : String) = _
  rw [List.append_nil]

theorem canon2_no_bad (neg : Bool) (u c2 : ℕ) (bad : Char)
    (hbadD : isDig bad = false) (hbad1 : bad ≠ '-') (hbad2 : bad ≠ '.') :
    bad ∉ (canon2 neg u c2).data := by
  intro hm
  rcases canon2_class neg u c2 bad hm with hd | rfl | rfl
  · rw [hbadD] at hd
    exact absurd hd (by decide)
  · exact hbad1 rfl
  · exact hbad2 rfl

theorem canon2_head_some (neg : Bool) (u c2 : ℕ) :
    ∀ c, (canon2 neg u c2).data.head? = some c → pyWs c = false := by
  obtain ⟨ch, t, hct, hws, _⟩ := canon2_head neg u c2
  intro c hc
  rw [hct] at hc
  simp only [List.head?_cons, Option.some.injEq] at hc
  rw [← hc]
  exact hws

theorem canon2_strip (neg : Bool) (u c2 : ℕ) :
    stripL (canon2 neg u c2).data = (canon2 neg u c2).data := by
  apply stripL_ends
  · exact canon2_head_some neg u c2
  · intro c hc
    rw [canon2_getLast neg u c2] at hc
    simp only [Option.some.injEq] at hc
    rw [← hc]
    exact (isDig_facts _ (isDig_digitCh _)).2.1

theorem canon2_filter (neg : Bool) (u c2 : ℕ) :
    dropPlusCommaDollar (canon2 neg u c2).data = (canon2 neg u c2).data := by
  apply filter_pass
  intro c hcm
  rcases canon2_class neg u c2 c hcm with hd | rfl | rfl
  · have hf := isDig_facts c hd
    simp only [Bool.not_eq_true', Bool.or_eq_false_iff, beq_eq_false_iff_ne]
    exact ⟨⟨hf.2.2.2.1, hf.2.2.2.2.1⟩, hf.2.2.2.2.2.1⟩
  · decide
  · decide

theorem canon2_dot_mem (neg : Bool) (u c2 : ℕ) :
    ('.' : Char) ∈ (canon2 neg u c2).data := by
  unfold canon2
  simp

theorem canon2_ne_na (neg : Bool) (u c2 : ℕ) :
    (canon2 neg u c2).data ≠ "N/A".data := by
  intro h
  have hdot := canon2_dot_mem neg u c2
  rw [h] at hdot
  exact absurd hdot (by decide)

/-- nabParse on a canonical textual amount (optionally DR-marked): the
full constructor pipeline of NABNumber.__new__ reaches the Decimal
grammar with the sign-adjusted canonical digits. -/
theorem nabParse_canonical (neg dr : Bool) (u c2 : ℕ) (hc : c2 < 100)
    (hnd : ¬(neg = true ∧ dr = true)) :
    nabParse (some (amountText neg dr u c2)) =
      .ok (.num (neg || dr) (u * 100 + c2) (-2)) := by
  cases dr with
  | false =>
    rw [amountText_no_dr]
    have hne : (canon2 neg u c2).data ≠ [] := canon2_ne_nil neg u c2
    have hnl : ('\n' : Char) ∉ (canon2 neg u c2).data :=
      canon2_no_bad neg u c2 '\n' (by decide) (by decide) (by decide)
    have hsp : (' ' : Char) ∉ (canon2 neg u c2).data :=
      canon2_no_bad neg u c2 ' ' (by decide) (by decide) (by decide)
    have hnm : ('m' : Char) ∉ (canon2 neg u c2).data :=
      canon2_no_bad neg u c2 'm' (by decide) (by decide) (by decide)
    simp only [nabParse]
    rw [if_neg hne]
    rw [splitCh_not_mem '\n' _ hnl]
    simp only [List.map_cons, List.map_nil, List.flatten_cons, List.flatten_nil,
      List.append_nil]
    simp only [canon2_strip neg u c2, canon2_filter neg u c2]
    rw [splitCh_not_mem ' ' _ hsp]
    simp only [List.headD_cons, List.drop_succ_cons, List.drop_zero,
      List.headD_nil]
    rw [replaceFuel_not_mem "-minus".data "-".data 'm' (by decide) _ _ hnm]
    rw [if_neg (by
      rintro (h | h)
      · exact canon2_ne_na neg u c2 h
      · exact hne h)]
    rw [if_neg (show ¬(([] : List Char) = "DR".data) from by decide)]
    show pyDecOfChars ([] ++ (canon2 neg u c2).data) = _
    rw [List.nil_append]
    simp only [Bool.or_false]
    exact pyDecOfChars_canonical neg u c2 hc
  | true =>
    have hnegf : neg = false := by
      cases neg with
      | false => rfl
      | true => exact absurd ⟨rfl, rfl⟩ hnd
    subst hnegf
    have hx : (amountText false true u c2).data =
        (canon2 false u c2).data ++ ' ' :: ['D', 'R'] := rfl
    have hspC : (' ' : Char) ∉ (canon2 false u c2).data :=
      canon2_no_bad false u c2 ' ' (by decide) (by decide) (by decide)
    have hne : (canon2 false u c2).data ++ ' ' :: ['D', 'R'] ≠ [] := by
      simp
    have hnl : ('\n' : Char) ∉ (canon2 false u c2).data ++ ' ' :: ['D', 'R'] := by
      intro hm
      rcases List.mem_append.mp hm with h1 | h1
      · exact canon2_no_bad false u c2 '\n' (by decide) (by decide) (by decide) h1
      · simp at h1
    have hnm : ('m' : Char) ∉ (canon2 false u c2).data ++ ' ' :: ['D', 'R'] := by
      intro hm
      rcases List.mem_append.mp hm with h1 | h1
      · exact canon2_no_bad false u c2 'm' (by decide) (by decide) (by decide) h1
      · simp at h1
    have hstripX : stripL ((canon2 false u c2).data ++ ' ' :: ['D', 'R']) =
        (canon2 false u c2).data ++ ' ' :: ['D', 'R'] := by
      apply stripL_ends
      · intro c hcc
        obtain ⟨ch, t, hct, hws, _⟩ := canon2_head false u c2
        rw [hct, List.cons_append] at hcc
        simp only [List.head?_cons, Option.some.injEq] at hcc
        rw [← hcc]
        exact hws
      · intro c hcc
        rw [List.getLast?_append_of_ne_nil _ (by simp :
          (' ' :: ['D', 'R']) ≠ [])] at hcc
        simp only [show (' ' :: ['D', 'R']).getLast? = some 'R' from rfl,
          Option.some.injEq] at hcc
        rw [← hcc]
        rfl
    have hfilterX : dropPlusCommaDollar
        ((canon2 false u c2).data ++ ' ' :: ['D', 'R']) =
        (canon2 false u c2).data ++ ' ' :: ['D', 'R'] := by
      apply filter_pass
      intro c hcm
      rcases List.mem_append.mp hcm with h1 | h1
      · rcases canon2_class false u c2 c h1 with hd | rfl | rfl
        · have hf := isDig_facts c hd
          simp only [Bool.not_eq_true', Bool.or_eq_false_iff, beq_eq_false_iff_ne]
          exact ⟨⟨hf.2.2.2.1, hf.2.2.2.2.1⟩, hf.2.2.2.2.2.1⟩
        · decide
        · decide
      · simp only [List.mem_cons, List.not_mem_nil, or_false] at h1
        rcases h1 with rfl | rfl | rfl <;> decide
    have hnaX : (canon2 false u c2).data ++ ' ' :: ['D', 'R'] ≠ "N/A".data := by
      intro h
      have hdot : ('.' : Char) ∈ (canon2 false u c2).data ++ ' ' :: ['D', 'R'] :=
        List.mem_append.mpr (Or.inl (canon2_dot_mem false u c2))
      rw [h] at hdot
      exact absurd hdot (by decide)
    simp only [nabParse, hx]
    rw [if_neg hne]
    rw [splitCh_not_mem '\n' _ hnl]
    simp only [List.map_cons, List.map_nil, List.flatten_cons, List.flatten_nil,
      List.append_nil]
    simp only [hstripX, hfilterX]
    rw [splitCh_append_sep ' ' (canon2 false u c2).data ['D', 'R'] hspC
      (by decide)]
    simp only [List.headD_cons, List.drop_succ_cons, List.drop_zero]
    have hmC : ('m' : Char) ∉ (canon2 false u c2).data :=
      canon2_no_bad false u c2 'm' (by decide) (by decide) (by decide)
    rw [replaceFuel_not_mem "-minus".data "-".data 'm' (by decide) _ _ hmC]
    rw [if_neg (by
      rintro (h | h)
      · exact hnaX h
      · exact hne h)]
    rw [if_true]
    show pyDecOfChars ((if true then ['-'] else []) ++
      natChars u ++ '.' :: twoDigCh c2) = _
    simp only [Bool.false_or]
    exact pyDecOfChars_canonical true u c2 hc

theorem canon2_last_some (neg : Bool) (u c2 : ℕ) :
    ∀ ch, (canon2 neg u c2).data.getLast? = some ch → pyWs ch = false := by
  intro ch hc
  rw [canon2_getLast neg u c2] at hc
  simp only [Option.some.injEq] at hc
  rw [← hc]
  exact (isDig_facts _ (isDig_digitCh _)).2.1

theorem nabStr_exp2 (neg : Bool) (c : ℕ) :
    nabStr (.num neg c (-2)) = ⟨pad6 (canon2 neg (c / 100) (c % 100)).data⟩ := by
  simp only [nabStr, decCents_exp2]
  rfl

theorem pyStrip_nabStr_exp2 (neg : Bool) (c : ℕ) :
    pyStrip (nabStr (.num neg c (-2))) = canon2 neg (c / 100) (c % 100) := by
  rw [nabStr_exp2]
  show (⟨stripL (pad6 (canon2 neg (c / 100) (c % 100)).data)⟩ : String) = _
  rw [stripL_pad6 _ (canon2_ne_nil neg (c / 100) (c % 100))
    (canon2_head_some neg (c / 100) (c % 100))
    (canon2_last_some neg (c / 100) (c % 100))]

theorem formatEmpty_exp2_canon (neg : Bool) (c : ℕ) :
    formatEmpty (.num neg c (-2)) = canon2 neg (c / 100) (c % 100) :=
  formatEmpty_exp2 neg c

/-- C8 counterexample: the rendering of the parse of the valid 2-decimal
amount 5.00 is the 6-wide padded text, two leading spaces included, which
is not the canonical 2-decimal form of the input. -/
theorem c8_counterexample :
    nabParse (some "5.00") = .ok (.num false 500 (-2)) ∧
    nabStr (.num false 500 (-2)) = "  5.00" ∧
    ("  5.00" : String) ≠ "5.00" := by decide

/-- C8 (amended): parsing a valid 2-decimal textual amount - an optional
minus sign, digits, a dot, two digits, optionally a trailing DR marker
which negates the value (minus sign and DR together are rejected by the
decimal grammar) - yields exactly the signed cent count, and the rendering
round-trips to the canonical 2-decimal form only after stripping: the raw
rendering is that form left-padded with spaces to width 6. -/
theorem c8_round_trip (neg dr : Bool) (u c2 : ℕ) (hc : c2 < 100)
    (hnd : ¬(neg = true ∧ dr = true)) :
    nabParse (some (amountText neg dr u c2)) =
      .ok (.num (neg || dr) (u * 100 + c2) (-2)) ∧
    nabStr (.num (neg || dr) (u * 100 + c2) (-2)) =
      ⟨pad6 (canon2 (neg || dr) u c2).data⟩ ∧
    pyStrip (nabStr (.num (neg || dr) (u * 100 + c2) (-2))) =
      canon2 (neg || dr) u c2 := by
  have hdiv : (u * 100 + c2) / 100 = u := by omega
  have hmod : (u * 100 + c2) % 100 = c2 := by omega
  refine ⟨nabParse_canonical neg dr u c2 hc hnd, ?_, ?_⟩
  · rw [nabStr_exp2, hdiv, hmod]
  · rw [pyStrip_nabStr_exp2, hdiv, hmod]

/-- C8 witness: the DR example of the claim, at neg false, dr true,
120 units and 0 cents: parsing 120.00 DR gives -12000 cents and the
stripped rendering is -120.00. -/
theorem c8_round_trip_witness :
    (0 : ℕ) < 100 ∧ ¬((false = true) ∧ (true = true)) ∧
    amountText false true 120 0 = "120.00 DR" ∧
    (nabParse (some (amountText false true 120 0)) =
        .ok (.num (false || true) (120 * 100 + 0) (-2)) ∧
      nabStr (.num (false || true) (120 * 100 + 0) (-2)) =
        ⟨pad6 (canon2 (false || true) 120 0).data⟩ ∧
      pyStrip (nabStr (.num (false || true) (120 * 100 + 0) (-2))) =
        canon2 (false || true) 120 0) ∧
    pyStrip (nabStr (.num true 12000 (-2))) = "-120.00" :=
  ⟨by decide, by decide, by decide,
   c8_round_trip false true 120 0 (by decide) (by decide), by decide⟩

/-- C10 counterexample: in the QIF export of an account holding one
transaction of amount -5.00 and balance 5.00, the padded balance
rendering with its two leading spaces appears nowhere - the
closing-balance line embeds the bare form 5.00 - and the delimited
per-transaction line likewise embeds the bare -5.00, not the one-space
padded rendering. -/
theorem c10_counterexample :
    (accountQif acc5).toOption.map Prod.fst = some qif5 ∧
    isInfixL "  5.00".data qif5.data = false ∧
    isInfixL "$5.00\n/".data qif5.data = true ∧
    isInfixL "T-5.00\n".data qif5.data = true ∧
    transStr t5 = "2024-01-15|-5.00|COFFEE|EFTPOS|COFFEE|Unspecified" ∧
    isInfixL " -5.00".data (transStr t5).data = false := by decide

/-- C10 (amended): a money amount's rendering is its two-decimal value
right-justified to a minimum width of 6 characters, and the per-record
amount line of the export strips that rendering; but the closing-balance
line and the delimited per-transaction line format the amount through a
bare format slot, which bypasses the padded rendering and produces the
plain fixed-point text - for two-decimal amounts, the same as the
stripped rendering. -/
theorem c10_amount_rendering :
    (∀ (neg : Bool) (c : ℕ),
      nabStr (.num neg c (-2)) =
        ⟨pad6 (pyStrip (nabStr (.num neg c (-2)))).data⟩ ∧
      formatEmpty (.num neg c (-2)) = pyStrip (nabStr (.num neg c (-2)))) ∧
    transQif t5 = "D2024-01-15\nT-5.00\nMCOFFEE\nNEFTPOS\nPCOFFEE\nLUnspecified\n^\n" ∧
    transStr t5 = "2024-01-15|-5.00|COFFEE|EFTPOS|COFFEE|Unspecified" ∧
    (accountQif acc5).toOption.map Prod.fst = some qif5 := by
  refine ⟨?_, by decide, by decide, by decide⟩
  intro neg c
  constructor
  · rw [pyStrip_nabStr_exp2, nabStr_exp2]
  · rw [formatEmpty_exp2_canon, pyStrip_nabStr_exp2]


theorem dictLookup_insert_self (m : List (String × String)) (k v : String) :
    dictLookup (dictInsert m k v) k = some v := by
  induction m with
  | nil =>
    show dictLookup [(k, v)] k = some v
    simp [dictLookup, List.find?_cons]
  | cons kv rest ih =>
    show dictLookup (if kv.1 = k then (k, v) :: rest else kv :: dictInsert rest k v) k = some v
    by_cases h : kv.1 = k
    · rw [if_pos h]
      simp [dictLookup, List.find?_cons]
    · rw [if_neg h]
      unfold dictLookup
      rw [List.find?_cons_of_neg _ (by simpa using h)]
      exact ih

theorem dictLookup_insert_other (m : List (String × String)) (k v k2 : String)
    (h : k2 ≠ k) : dictLookup (dictInsert m k v) k2 = dictLookup m k2 := by
  have hk2 : ¬((k, v).1 = k2) := fun he => h he.symm
  induction m with
  | nil =>
    show dictLookup [(k, v)] k2 = dictLookup [] k2
    unfold dictLookup
    rw [List.find?_cons_of_neg _ (by simpa using hk2)]
  | cons kv rest ih =>
    show dictLookup (if kv.1 = k then (k, v) :: rest else kv :: dictInsert rest k v) k2 =
      dictLookup (kv :: rest) k2
    by_cases hk : kv.1 = k
    · rw [if_pos hk]
      have hne : ¬(kv.1 = k2) := by
        rw [hk]
        exact fun he => h he.symm
      unfold dictLookup
      rw [List.find?_cons_of_neg _ (by simpa using hk2),
          List.find?_cons_of_neg _ (by simpa using hne)]
    · rw [if_neg hk]
      by_cases h2 : kv.1 = k2
      · unfold dictLookup
        rw [List.find?_cons_of_pos _ (by simpa using h2),
            List.find?_cons_of_pos _ (by simpa using h2)]
      · unfold dictLookup
        rw [List.find?_cons_of_neg _ (by simpa using h2),
            List.find?_cons_of_neg _ (by simpa using h2)]
        exact ih

theorem findFirst_none_of_all (items : List (String × String)) (f : String)
    (h : ∀ kv ∈ items, containsCI kv.1 f = false) : findFirst items f = none := by
  rw [findFirst_eq_find]
  have hn : items.find? (fun kv => containsCI kv.1 f) = none := by
    rw [List.find?_eq_none]
    intro kv hkv
    simp [h kv hkv]
  rw [hn]
  rfl

theorem findFirst_agree (items : List (String × String)) (f c : String)
    (hex : ∃ kv ∈ items, containsCI kv.1 f = true)
    (hall : ∀ kv ∈ items, containsCI kv.1 f = true → kv.2 = c) :
    findFirst items f = some c := by
  rw [findFirst_eq_find]
  cases hf : items.find? (fun kv => containsCI kv.1 f) with
  | none =>
    rw [List.find?_eq_none] at hf
    obtain ⟨kv0, hm0, hc0⟩ := hex
    exact absurd hc0 (by simpa using hf kv0 hm0)
  | some kv =>
    have h1 : containsCI kv.1 f = true := by simpa using List.find?_some hf
    have h2 : kv ∈ items := List.mem_of_find?_eq_some hf
    exact congrArg some (hall kv h2 h1)

/-- C3 counterexample: with both rule files present, both are read - the
final mapping defines tea, a pattern only the shared file carries, and
its entry for the colliding pattern coffee is the shared file's category,
so the account-specific file is neither the only file read nor the
priority one; and two enumerations of one two-rule mapping categorize the
same fields differently, so a fixed rule order cannot be promised for the
loop, whose scan follows the dict's unspecified enumeration. -/
theorem c3_counterexample :
    (payeeCategoryMap (some ["coffee|A"]) (some ["coffee|B", "tea|C"])).map
        (fun mm => (dictLookup mm "coffee", dictLookup mm "tea")) =
      .ok (some "B", some "C") ∧
    (some "B" : Option String) ≠ some "A" ∧
    findCategoryItems [("a", "X"), ("b", "Y")] none "AB" = "X" ∧
    findCategoryItems [("b", "Y"), ("a", "X")] none "AB" = "Y" ∧
    List.Perm [("a", "X"), ("b", "Y")] [("b", "Y"), ("a", "X")] ∧
    ("X" : String) ≠ "Y" := by
  refine ⟨by decide, by decide, by decide, by decide,
    List.Perm.swap ("b", "Y") ("a", "X") [], by decide⟩

/-- C3, amended: rules are read from every candidate rule file that
exists - the account-specific file first, then the shared file, a later
assignment to an already-present pattern overwriting the earlier entry,
so shared-file rules replace colliding account-specific ones, and the
mapping is empty only when neither file exists.  For rule patterns free
of regex metacharacters and fields free of newlines, a rule matches a
field exactly when its pattern occurs in it case-insensitively; the
categorization pass tries every rule against the payee field (a falsy
payee read as empty text) and, only when none matches there, every rule
against the memo field, with default category Unspecified - but it scans
the rules in the dict's enumeration order, which CPython 2.7 leaves
unspecified, so for every enumeration of the mapping the outcome is
Unspecified when no rule matches, and is determined only when all
matching rules of the deciding field agree on one category. -/
theorem c3_category_rules (l1 l2 : List String)
    (r1 r2 m : List (String × String)) (payee : Option String) (memo : String)
    (h1 : parseRuleLines l1 = .ok r1) (h2 : parseRuleLines l2 = .ok r2)
    (hlit : (m.all (fun kv => litPat kv.1)) = true)
    (hpf : noNL (payee.getD "") = true) (hmf : noNL memo = true) :
    (payeeCategoryMap (some l1) (some l2) =
        .ok (insertAll (insertAll [] r1) r2) ∧
      payeeCategoryMap (some l1) none = .ok (insertAll [] r1) ∧
      payeeCategoryMap none (some l2) = .ok (insertAll [] r2) ∧
      payeeCategoryMap none none = .ok [] ∧
      (∀ (m2 : List (String × String)) (k v : String),
        dictLookup (dictInsert m2 k v) k = some v) ∧
      (∀ (m2 : List (String × String)) (k v k2 : String), k2 ≠ k →
        dictLookup (dictInsert m2 k v) k2 = dictLookup m2 k2)) ∧
    (∀ items : List (String × String), List.Perm items m →
      ((∀ kv ∈ m, containsCI kv.1 (payee.getD "") = false ∧
          containsCI kv.1 memo = false) →
        findCategoryItems items payee memo = "Unspecified") ∧
      (∀ c : String,
        (∃ kv ∈ m, containsCI kv.1 (payee.getD "") = true) →
        (∀ kv ∈ m, containsCI kv.1 (payee.getD "") = true → kv.2 = c) →
        findCategoryItems items payee memo = c) ∧
      (∀ c : String,
        (∀ kv ∈ m, containsCI kv.1 (payee.getD "") = false) →
        (∃ kv ∈ m, containsCI kv.1 memo = true) →
        (∀ kv ∈ m, containsCI kv.1 memo = true → kv.2 = c) →
        findCategoryItems items payee memo = c)) := by
  constructor
  · refine ⟨?_, ?_, ?_, rfl, dictLookup_insert_self, ?_⟩
    · show (do
        let m1 ← loadFileInto [] l1
        loadFileInto m1 l2) = _
      rw [loadFileInto_parse l1 [], h1]
      show loadFileInto (insertAll [] r1) l2 = _
      rw [loadFileInto_parse l2 (insertAll [] r1), h2]
      rfl
    · show (do
        let m1 ← loadFileInto [] l1
        (pure m1 : Except PyErr (List (String × String)))) = _
      rw [loadFileInto_parse l1 [], h1]
      rfl
    · show loadFileInto [] l2 = _
      rw [loadFileInto_parse l2 [], h2]
      rfl
    · intro m2 k v k2 hne
      exact dictLookup_insert_other m2 k v k2 hne
  · intro items hperm
    have hmem : ∀ kv : String × String, kv ∈ items ↔ kv ∈ m :=
      fun kv => hperm.mem_iff
    refine ⟨?_, ?_, ?_⟩
    · intro hnone
      unfold findCategoryItems
      rw [findFirst_none_of_all items (payee.getD "")
            (fun kv hkv => (hnone kv ((hmem kv).1 hkv)).1),
          findFirst_none_of_all items memo
            (fun kv hkv => (hnone kv ((hmem kv).1 hkv)).2)]
      rfl
    · intro c hex hall
      obtain ⟨kv0, hkv0, hc0⟩ := hex
      unfold findCategoryItems
      rw [findFirst_agree items (payee.getD "") c
            ⟨kv0, (hmem kv0).2 hkv0, hc0⟩
            (fun kv hkv hc => hall kv ((hmem kv).1 hkv) hc)]
    · intro c hpnone hex hall
      obtain ⟨kv0, hkv0, hc0⟩ := hex
      unfold findCategoryItems
      rw [findFirst_none_of_all items (payee.getD "")
            (fun kv hkv => hpnone kv ((hmem kv).1 hkv)),
          findFirst_agree items memo c
            ⟨kv0, (hmem kv0).2 hkv0, hc0⟩
            (fun kv hkv hc => hall kv ((hmem kv).1 hkv) hc)]
      rfl

/-- C3, witness: the amended theorem at concrete rule files - coffee to
Dining in the specific file, tea to Breaks in the shared one - whose
patterns are metacharacter-free, a newline-free query with absent payee
and memo TEA TIME, and the loop run on the swapped enumeration of the
two-rule mapping, which must answer Breaks since only the tea rule
matches. -/
theorem c3_category_rules_witness :
    parseRuleLines ["coffee|Dining"] = .ok [("coffee", "Dining")] ∧
    parseRuleLines ["tea|Breaks"] = .ok [("tea", "Breaks")] ∧
    ([("coffee", "Dining"), ("tea", "Breaks")].all (fun kv => litPat kv.1)) = true ∧
    noNL ((none : Option String).getD "") = true ∧
    noNL "TEA TIME" = true ∧
    payeeCategoryMap (some ["coffee|Dining"]) (some ["tea|Breaks"]) =
      .ok (insertAll (insertAll [] [("coffee", "Dining")]) [("tea", "Breaks")]) ∧
    findCategoryItems [("tea", "Breaks"), ("coffee", "Dining")] none "TEA TIME" =
      "Breaks" := by
  refine ⟨by decide, by decide, by decide, by decide, by decide, ?_, ?_⟩
  · exact (c3_category_rules ["coffee|Dining"] ["tea|Breaks"]
      [("coffee", "Dining")] [("tea", "Breaks")]
      [("coffee", "Dining"), ("tea", "Breaks")] none "TEA TIME"
      (by decide) (by decide) (by decide) (by decide) (by decide)).1.1
  · exact ((c3_category_rules ["coffee|Dining"] ["tea|Breaks"]
      [("coffee", "Dining")] [("tea", "Breaks")]
      [("coffee", "Dining"), ("tea", "Breaks")] none "TEA TIME"
      (by decide) (by decide) (by decide) (by decide) (by decide)).2
      [("tea", "Breaks"), ("coffee", "Dining")]
      (List.Perm.swap ("coffee", "Dining") ("tea", "Breaks") [])).2.2
      "Breaks" (by decide) (by decide) (by decide)

end Nabib
